import Mathlib

/-!
Shallow embedding of the hospital data-quality services of this repository
(`src/core/services/*.py`, `src/adapters/*.py`, `backend/app.py`) and proofs
about them.  Python floats are modelled as rationals (`ℚ`), Python `None` as
`Option`, Python lists as `List`, Python insertion-ordered dicts as
association lists, and Python sets by membership in a list of keys.  Python's
stable `sorted` is modelled by a stable insertion sort (`sortLe`).
-/

namespace Hospital

/-- Python truthiness of an `Optional[str]`: `None` and the empty string are
falsy, every other string is truthy. -/
def truthyStr : Option String → Bool
  | none => false
  | some s => s ≠ ""

/-- Python truthiness of an `Optional[int]`: `None` and `0` are falsy. -/
def truthyInt : Option Int → Bool
  | none => false
  | some n => n ≠ 0

/-- Record of the `pacientes` array (dataclass `PatientRecord` in
`src/core/models.py`); `categoria` holds the `PatientCategory.value` string. -/
structure PatientRecord where
  id_paciente : Int
  nombre : String
  fecha_nacimiento : Option String
  edad : Option Int
  sexo : Option String
  email : Option String
  telefono : Option String
  ciudad : Option String
  categoria : String
deriving Repr, DecidableEq

/-- Record of the `citas_medicas` array (dataclass `AppointmentRecord` in
`src/core/models.py`); `costo` is a Python float, modelled as `ℚ`. -/
structure AppointmentRecord where
  id_cita : String
  id_paciente : Option Int
  fecha_cita : Option String
  especialidad : Option String
  medico : Option String
  costo : Option ℚ
  estado_cita : Option String
deriving Repr, DecidableEq

/-! Stable insertion sort, the model of Python's stable `sorted(xs, key=...)`:
`sortLe le` places `a` before `b` whenever `le a b`, and keeps the original
order of elements tied under `le`, exactly like CPython's stable sort when
`le` is the `≤` of a total preorder on the sort key. -/

/-- Insert `a` into `l` before the first element `b` with `le a b`. -/
def insertLe {α : Type} (le : α → α → Bool) (a : α) : List α → List α
  | [] => [a]
  | b :: l => if le a b then a :: b :: l else b :: insertLe le a l

/-- Stable insertion sort by the boolean relation `le`. -/
def sortLe {α : Type} (le : α → α → Bool) : List α → List α
  | [] => []
  | a :: l => insertLe le a (sortLe le l)

theorem insertLe_perm {α : Type} (le : α → α → Bool) (a : α) (l : List α) :
    List.Perm (insertLe le a l) (a :: l) := by
  induction l with
  | nil => simp [insertLe]
  | cons b t ih =>
      simp only [insertLe]
      by_cases h : le a b = true
      · rw [if_pos h]
      · rw [if_neg h]
        exact ((ih.cons b).trans (List.Perm.swap a b t))

theorem sortLe_perm {α : Type} (le : α → α → Bool) (l : List α) :
    List.Perm (sortLe le l) l := by
  induction l with
  | nil => simp [sortLe]
  | cons a t ih => exact (insertLe_perm le a (sortLe le t)).trans (ih.cons a)

theorem insertLe_pairwise {α : Type} (le : α → α → Bool)
    (htot : ∀ x y, le x y ∨ le y x)
    (htrans : ∀ x y z, le x y = true → le y z = true → le x z = true)
    (a : α) (l : List α)
    (hl : l.Pairwise (fun x y => le x y = true)) :
    (insertLe le a l).Pairwise (fun x y => le x y = true) := by
  induction l with
  | nil => simp [insertLe]
  | cons b t ih =>
      rcases hl with _ | ⟨hb, ht⟩
      simp only [insertLe]
      by_cases h : le a b = true
      · rw [if_pos h]
        refine List.Pairwise.cons ?_ (List.Pairwise.cons hb ht)
        intro y hy
        rcases List.mem_cons.mp hy with rfl | hy
        · exact h
        · exact htrans a b y h (hb y hy)
      · rw [if_neg h]
        refine List.Pairwise.cons ?_ (ih ht)
        intro y hy
        have hy' := (insertLe_perm le a t).mem_iff.mp hy
        rcases List.mem_cons.mp hy' with rfl | hy'
        · rcases htot b y with hby | hyb
          · exact hby
          · exact absurd hyb (by simpa using h)
        · exact hb y hy'

theorem sortLe_pairwise {α : Type} (le : α → α → Bool)
    (htot : ∀ x y, le x y ∨ le y x)
    (htrans : ∀ x y z, le x y = true → le y z = true → le x z = true)
    (l : List α) :
    (sortLe le l).Pairwise (fun x y => le x y = true) := by
  induction l with
  | nil => simp [sortLe]
  | cons a t ih => exact insertLe_pairwise le htot htrans a (sortLe le t) ih

/-! Referential integrity (`src/core/services/referential_integrity_service.py`). -/

/-- Entry of the referential-integrity report (`ReferentialIntegrityEntry`). -/
structure ReferentialIntegrityEntry where
  id_cita : String
  id_paciente : Option Int
  motivo : String
deriving Repr, DecidableEq

/-- Report of `ReferentialIntegrityService.check` (`ReferentialIntegrityReport`). -/
structure ReferentialIntegrityReport where
  total_citas : Nat
  orphan_citas : Nat
  entries : List ReferentialIntegrityEntry
deriving Repr, DecidableEq

/-- Embedding of `ReferentialIntegrityService._load_patient_ids`: the ids of
the patient list.  The Python set is modelled by this list, used only through
membership tests. -/
def load_patient_ids (patients : List PatientRecord) : List Int :=
  patients.map (fun p => p.id_paciente)

/-- Body of the `for record in records` loop of
`ReferentialIntegrityService.check`: the entry appended for `record`, if any. -/
def integrityEntryFor (patient_ids : List Int) (record : AppointmentRecord) :
    Option ReferentialIntegrityEntry :=
  match record.id_paciente with
  | none => some ⟨record.id_cita, none, "id_paciente ausente"⟩
  | some pid =>
      if pid ∈ patient_ids then none
      else some ⟨record.id_cita, some pid, "paciente no registrado"⟩

/-- Embedding of `ReferentialIntegrityService.check`: one pass over the
appointments, appending an entry for each orphan record. -/
def integrityCheck (appointments : List AppointmentRecord)
    (patients : List PatientRecord) : ReferentialIntegrityReport :=
  let patient_ids := load_patient_ids patients
  let entries := appointments.filterMap (integrityEntryFor patient_ids)
  { total_citas := appointments.length
    orphan_citas := entries.length
    entries := entries }

/-- Predicate written from the claim: an appointment is an orphan when its
`id_paciente` is null or not among the patient ids of the patient list. -/
def isOrphan (patients : List PatientRecord) (record : AppointmentRecord) : Bool :=
  match record.id_paciente with
  | none => true
  | some pid => pid ∉ patients.map (fun p => p.id_paciente)

theorem integrityEntryFor_eq_none_iff (patients : List PatientRecord)
    (r : AppointmentRecord) :
    integrityEntryFor (load_patient_ids patients) r = none ↔
      isOrphan patients r = false := by
  cases h : r.id_paciente with
  | none => simp [integrityEntryFor, isOrphan, h]
  | some pid =>
      by_cases hm : pid ∈ load_patient_ids patients
      · simp [integrityEntryFor, isOrphan, h, hm, load_patient_ids]
      · simp [integrityEntryFor, isOrphan, h, hm, load_patient_ids]

theorem integrity_entries_eq (appointments : List AppointmentRecord)
    (patients : List PatientRecord) :
    (integrityCheck appointments patients).entries =
      (appointments.filter (isOrphan patients)).filterMap
        (integrityEntryFor (load_patient_ids patients)) := by
  simp only [integrityCheck]
  induction appointments with
  | nil => simp
  | cons a t ih =>
      by_cases h : isOrphan patients a = true
      · rcases ho : integrityEntryFor (load_patient_ids patients) a with _ | e
        · exact absurd ((integrityEntryFor_eq_none_iff patients a).mp ho)
            (by simp [h])
        · simp [List.filterMap_cons, List.filter_cons, h, ho, ih]
      · have hn : integrityEntryFor (load_patient_ids patients) a = none :=
          (integrityEntryFor_eq_none_iff patients a).mpr (by simpa using h)
        simp [List.filterMap_cons, List.filter_cons, h, hn, ih]

/-- Claim C4: the referential-integrity check reports as orphans exactly the
appointments whose `id_paciente` is null or not among the patient ids; the
orphan count is the number of such appointments and the total is the number
of appointments. -/
theorem C4_referential_integrity (appointments : List AppointmentRecord)
    (patients : List PatientRecord) :
    (integrityCheck appointments patients).total_citas = appointments.length ∧
    (integrityCheck appointments patients).orphan_citas =
      (appointments.filter (isOrphan patients)).length ∧
    (integrityCheck appointments patients).entries.map
        (fun e => (e.id_cita, e.id_paciente)) =
      (appointments.filter (isOrphan patients)).map
        (fun r => (r.id_cita, r.id_paciente)) := by
  refine ⟨rfl, ?_, ?_⟩
  · show (appointments.filterMap (integrityEntryFor (load_patient_ids patients))).length = _
    have h := integrity_entries_eq appointments patients
    simp only [integrityCheck] at h
    rw [h]
    have : ∀ l : List AppointmentRecord,
        (∀ r ∈ l, isOrphan patients r = true) →
        (l.filterMap (integrityEntryFor (load_patient_ids patients))).length = l.length := by
      intro l
      induction l with
      | nil => simp
      | cons a t ih =>
          intro hall
          have ha : isOrphan patients a = true := hall a (by simp)
          rcases ho : integrityEntryFor (load_patient_ids patients) a with _ | e
          · exact absurd ((integrityEntryFor_eq_none_iff patients a).mp ho)
              (by simp [ha])
          · simp [List.filterMap_cons, ho, ih (fun r hr => hall r (by simp [hr]))]
    exact this _ (fun r hr => (List.mem_filter.mp hr).2
      |>.symm ▸ (List.mem_filter.mp hr).2)
  · have h := integrity_entries_eq appointments patients
    rw [h]
    have : ∀ l : List AppointmentRecord,
        (∀ r ∈ l, isOrphan patients r = true) →
        (l.filterMap (integrityEntryFor (load_patient_ids patients))).map
            (fun e => (e.id_cita, e.id_paciente)) =
          l.map (fun r => (r.id_cita, r.id_paciente)) := by
      intro l
      induction l with
      | nil => simp
      | cons a t ih =>
          intro hall
          have ha : isOrphan patients a = true := hall a (by simp)
          rcases ho : integrityEntryFor (load_patient_ids patients) a with _ | e
          · exact absurd ((integrityEntryFor_eq_none_iff patients a).mp ho)
              (by simp [ha])
          · have he : (e.id_cita, e.id_paciente) = (a.id_cita, a.id_paciente) := by
              cases hid : a.id_paciente with
              | none => simp [integrityEntryFor, hid] at ho; simp [← ho]
              | some pid =>
                  simp [integrityEntryFor, hid] at ho
                  rcases ho with ⟨hmem, rfl⟩
                  simp
            simp [List.filterMap_cons, ho, he,
              ih (fun r hr => hall r (by simp [hr]))]
    exact this _ (fun r hr => (List.mem_filter.mp hr).2)

/-! Dates.  `datetime.fromisoformat` is modelled for the fragment the dataset
uses: `YYYY-MM-DD`, optionally followed by `THH:MM` or `THH:MM:SS`; every
other string fails to parse, as the Python call raises `ValueError`. -/

/-- Calendar date, the model of Python's `datetime.date`. -/
structure SimpleDate where
  year : Int
  month : Nat
  day : Nat
deriving Repr, DecidableEq

/-- Gregorian leap year, as Python's `calendar`/`datetime` use it. -/
def isLeapYear (y : Int) : Bool := (y % 4 = 0 && y % 100 != 0) || y % 400 = 0

/-- Days of month `m` in year `y` (Python `calendar.monthrange` semantics). -/
def daysInMonth (y : Int) (m : Nat) : Nat :=
  if m = 2 then (if isLeapYear y then 29 else 28)
  else if m = 4 || m = 6 || m = 9 || m = 11 then 30
  else 31

/-- Numeric value of a decimal digit character, `none` otherwise. -/
def digitVal (c : Char) : Option Nat :=
  if '0' ≤ c && c ≤ '9' then some (c.toNat - 48) else none

/-- Value of two decimal digit characters. -/
def twoDigits (a b : Char) : Option Nat := do
  let x ← digitVal a
  let y ← digitVal b
  pure (10 * x + y)

/-- Parse of an optional ISO time tail after the date part: empty, `THH:MM`
or `THH:MM:SS`, giving seconds since midnight. -/
def parseTimeTail : List Char → Option Nat
  | [] => some 0
  | ['T', h1, h2, ':', m1, m2] => do
      let h ← twoDigits h1 h2
      let m ← twoDigits m1 m2
      if h < 24 && m < 60 then pure (3600 * h + 60 * m) else none
  | ['T', h1, h2, ':', m1, m2, ':', s1, s2] => do
      let h ← twoDigits h1 h2
      let m ← twoDigits m1 m2
      let s ← twoDigits s1 s2
      if h < 24 && m < 60 && s < 60 then pure (3600 * h + 60 * m + s) else none
  | _ => none

/-- Timestamp, the model of Python's `datetime.datetime`: a date plus the
seconds elapsed since midnight. -/
structure PyDateTime where
  date : SimpleDate
  secs : Nat
deriving Repr, DecidableEq

/-- Parse of the modelled `datetime.fromisoformat` fragment. -/
def parseIsoDateTime (s : String) : Option PyDateTime :=
  match s.data with
  | y1 :: y2 :: y3 :: y4 :: '-' :: mo1 :: mo2 :: '-' :: d1 :: d2 :: rest => do
      let yh ← twoDigits y1 y2
      let yl ← twoDigits y3 y4
      let mo ← twoDigits mo1 mo2
      let d ← twoDigits d1 d2
      let y : Int := 100 * yh + yl
      if 1 ≤ mo && mo ≤ 12 && 1 ≤ d && d ≤ daysInMonth y mo && 1 ≤ y then
        let secs ← parseTimeTail rest
        pure ⟨⟨y, mo, d⟩, secs⟩
      else none
  | _ => none

/-- Embedding of `AgeConsistencyService._parse_birthdate`: falsy strings give
`None`, otherwise `datetime.fromisoformat(value).date()`, or `None` on
`ValueError`. -/
def parse_birthdate (value : Option String) : Option SimpleDate :=
  match value with
  | none => none
  | some s => if s = "" then none else (parseIsoDateTime s).map (fun dt => dt.date)

/-- Embedding of `AgeConsistencyService._calculate_age`: the year difference,
minus one when the cutoff's (month, day) precedes the birthday's, clamped at
zero by `max(years, 0)`. -/
def calculate_age (birth_date cutoff_date : SimpleDate) : Int :=
  let years := cutoff_date.year - birth_date.year
  let years :=
    if cutoff_date.month < birth_date.month ||
        (cutoff_date.month = birth_date.month && cutoff_date.day < birth_date.day)
    then years - 1 else years
  max years 0

/-- Formula written from the claim: the whole-years difference between the
birth date and the cutoff date (year difference, minus one if the cutoff's
month/day precedes the birthday's month/day), with no clamping. -/
def claimWholeYears (birth_date cutoff_date : SimpleDate) : Int :=
  let years := cutoff_date.year - birth_date.year
  if cutoff_date.month < birth_date.month ||
      (cutoff_date.month = birth_date.month && cutoff_date.day < birth_date.day)
  then years - 1 else years

/-- Zero-padded two-digit decimal rendering of a natural number. -/
def natToCharsAux : Nat → Nat → List Char → List Char
  | 0, _, acc => acc
  | fuel + 1, n, acc =>
      let d := Char.ofNat (48 + n % 10)
      if n < 10 then d :: acc else natToCharsAux fuel (n / 10) (d :: acc)

/-- Decimal digit characters of a natural number (the model of Python's
integer-to-string formatting), fuel-based so that it is structural. -/
def natToChars (n : Nat) : List Char := natToCharsAux (n + 1) n []

/-- Decimal rendering of a natural number. -/
def natToString (n : Nat) : String := ⟨natToChars n⟩

/-- Decimal rendering of an integer (model of Python `str(int)`). -/
def intToString (i : Int) : String :=
  if i < 0 then "-" ++ natToString (-i).toNat else natToString i.toNat

def pad2 (n : Nat) : String :=
  if n < 10 then "0" ++ natToString n else natToString n

/-- Zero-padded four-digit decimal rendering (Python `date.isoformat` year). -/
def pad4 (n : Nat) : String :=
  if n < 10 then "000" ++ natToString n
  else if n < 100 then "00" ++ natToString n
  else if n < 1000 then "0" ++ natToString n
  else natToString n

/-- Model of Python's `date.isoformat`. -/
def SimpleDate.isoformat (d : SimpleDate) : String :=
  pad4 d.year.toNat ++ "-" ++ pad2 d.month ++ "-" ++ pad2 d.day

/-! Age consistency (`src/core/services/age_consistency_service.py`). -/

/-- Entry of the age-consistency log (`AgeCorrectionLogEntry`). -/
structure AgeCorrectionLogEntry where
  id_paciente : Int
  nombre : String
  fecha_nacimiento : Option String
  edad_registrada : Option Int
  edad_calculada : Option Int
  action : String
  note : String
deriving Repr, DecidableEq

/-- Report of `AgeConsistencyService.audit_ages` (`AgeConsistencyReport`). -/
structure AgeConsistencyReport where
  cutoff_date : SimpleDate
  total_records : Nat
  inconsistencies : Nat
  imputations : Nat
  missing_birthdate_records : Nat
  log_entries : List AgeCorrectionLogEntry
deriving Repr, DecidableEq

/-- Body of the `for record in records` loop of `audit_ages` for one record:
the log entry it appends, if any (the loop appends at most one per record). -/
def ageLogFor (cutoff_date : SimpleDate) (record : PatientRecord) :
    Option AgeCorrectionLogEntry :=
  match parse_birthdate record.fecha_nacimiento with
  | none =>
      if truthyStr record.fecha_nacimiento then
        some ⟨record.id_paciente, record.nombre, record.fecha_nacimiento,
          record.edad, none, "invalid_birthdate",
          "La fecha de nacimiento existe pero no cumple el formato ISO válido."⟩
      else
        some ⟨record.id_paciente, record.nombre, record.fecha_nacimiento,
          record.edad, none, "missing_birthdate",
          "No se puede calcular la edad porque falta la fecha de nacimiento."⟩
  | some birth_date =>
      match record.edad with
      | none =>
          some ⟨record.id_paciente, record.nombre, record.fecha_nacimiento,
            none, some (calculate_age birth_date cutoff_date), "imputed_age",
            "Edad imputada usando la diferencia entre " ++
              cutoff_date.isoformat ++ " y la fecha de nacimiento."⟩
      | some edad =>
          if edad ≠ calculate_age birth_date cutoff_date then
            some ⟨record.id_paciente, record.nombre, record.fecha_nacimiento,
              some edad, some (calculate_age birth_date cutoff_date),
              "inconsistent_age",
              "La edad registrada (" ++ toString edad ++
                ") no coincide con la calculada (" ++
                toString (calculate_age birth_date cutoff_date) ++
                ") para la fecha de corte " ++ cutoff_date.isoformat ++ "."⟩
          else none

/-- Per-record counter increments of the `audit_ages` loop:
(inconsistencies, imputations, missing_birthdate_records). -/
def ageCountsFor (cutoff_date : SimpleDate) (record : PatientRecord) :
    Nat × Nat × Nat :=
  match parse_birthdate record.fecha_nacimiento with
  | none => (0, 0, 1)
  | some birth_date =>
      match record.edad with
      | none => (0, 1, 0)
      | some edad =>
          if edad ≠ calculate_age birth_date cutoff_date then (1, 0, 0)
          else (0, 0, 0)

/-- Embedding of `AgeConsistencyService.audit_ages`: a single pass over the
patient records, accumulating the log entries and the three counters. -/
def audit_ages (records : List PatientRecord) (cutoff_date : SimpleDate) :
    AgeConsistencyReport :=
  { cutoff_date := cutoff_date
    total_records := records.length
    inconsistencies :=
      (records.map (fun r => (ageCountsFor cutoff_date r).1)).sum
    imputations :=
      (records.map (fun r => (ageCountsFor cutoff_date r).2.1)).sum
    missing_birthdate_records :=
      (records.map (fun r => (ageCountsFor cutoff_date r).2.2)).sum
    log_entries := records.filterMap (ageLogFor cutoff_date) }

theorem calculate_age_eq_max_claim (b c : SimpleDate) :
    calculate_age b c = max (claimWholeYears b c) 0 := rfl

theorem sum_map_eq_length_filter {α : Type} (f : α → Nat) (p : α → Bool)
    (h : ∀ x, f x = if p x then 1 else 0) (l : List α) :
    (l.map f).sum = (l.filter p).length := by
  induction l with
  | nil => simp
  | cons a t ih =>
      by_cases ha : p a = true
      · simp [List.filter_cons, ha, h a, ih, Nat.add_comm]
      · simp [List.filter_cons, ha, h a, ih]

/-- Claim C2 (amended): for a patient whose stored age is absent and whose
birth date parses, the audit logs an `imputed_age` entry whose calculated age
is the whole-years difference clamped at zero, and the imputation count is
the number of patients with absent age and parseable birth date. -/
theorem C2_age_imputation (records : List PatientRecord) (cutoff : SimpleDate)
    (r : PatientRecord) (b : SimpleDate) (hr : r ∈ records)
    (he : r.edad = none) (hb : parse_birthdate r.fecha_nacimiento = some b) :
    (⟨r.id_paciente, r.nombre, r.fecha_nacimiento, none,
        some (max (claimWholeYears b cutoff) 0), "imputed_age",
        "Edad imputada usando la diferencia entre " ++ cutoff.isoformat ++
          " y la fecha de nacimiento."⟩ : AgeCorrectionLogEntry) ∈
      (audit_ages records cutoff).log_entries ∧
    (audit_ages records cutoff).imputations =
      (records.filter (fun p =>
        p.edad = none && (parse_birthdate p.fecha_nacimiento).isSome)).length := by
  constructor
  · have hlog : ageLogFor cutoff r =
        some ⟨r.id_paciente, r.nombre, r.fecha_nacimiento, none,
          some (max (claimWholeYears b cutoff) 0), "imputed_age",
          "Edad imputada usando la diferencia entre " ++ cutoff.isoformat ++
            " y la fecha de nacimiento."⟩ := by
      simp only [ageLogFor, hb, he, calculate_age_eq_max_claim]
    simpa [audit_ages, List.mem_filterMap] using ⟨r, hr, hlog⟩
  · show (records.map (fun r => (ageCountsFor cutoff r).2.1)).sum = _
    refine sum_map_eq_length_filter _ _ (fun x => ?_) records
    rcases hp : parse_birthdate x.fecha_nacimiento with _ | bd <;>
      rcases hx : x.edad with _ | e
    · simp [ageCountsFor, hp, hx]
    · simp [ageCountsFor, hp, hx]
    · simp [ageCountsFor, hp, hx]
    · by_cases hc : e = calculate_age bd cutoff <;>
        simp [ageCountsFor, hp, hx, hc]

/-- Witness for C2: one patient born 2000-05-10 with no stored age, audited
at cutoff 2020-05-09, gets an imputed age of 19. -/
theorem C2_age_imputation_witness :
    (⟨1, "Ana", some "2000-05-10", none,
        some (max (claimWholeYears ⟨2000, 5, 10⟩ ⟨2020, 5, 9⟩) 0), "imputed_age",
        "Edad imputada usando la diferencia entre " ++
          (⟨2020, 5, 9⟩ : SimpleDate).isoformat ++
          " y la fecha de nacimiento."⟩ : AgeCorrectionLogEntry) ∈
      (audit_ages [⟨1, "Ana", some "2000-05-10", none, none, none, none, none,
          "unknown"⟩] ⟨2020, 5, 9⟩).log_entries ∧
    (audit_ages [⟨1, "Ana", some "2000-05-10", none, none, none, none, none,
          "unknown"⟩] ⟨2020, 5, 9⟩).imputations =
      ([(⟨1, "Ana", some "2000-05-10", none, none, none, none, none,
          "unknown"⟩ : PatientRecord)].filter (fun p =>
        p.edad = none && (parse_birthdate p.fecha_nacimiento).isSome)).length :=
  C2_age_imputation
    [⟨1, "Ana", some "2000-05-10", none, none, none, none, none, "unknown"⟩]
    ⟨2020, 5, 9⟩
    ⟨1, "Ana", some "2000-05-10", none, none, none, none, none, "unknown"⟩
    ⟨2000, 5, 10⟩ (by simp) (by rfl) (by rfl)

/-- Counterexample to C2 as stated: a patient born 2030-01-01 with no stored
age, audited at cutoff 2020-01-01, is logged with a calculated age of 0,
while the claim's whole-years difference is -10. -/
theorem C2_counterexample :
    ((audit_ages [⟨1, "Ana", some "2030-01-01", none, none, none, none, none,
          "unknown"⟩] ⟨2020, 1, 1⟩).log_entries.map
        (fun e => (e.action, e.edad_calculada)) = [("imputed_age", some 0)]) ∧
    claimWholeYears ⟨2030, 1, 1⟩ ⟨2020, 1, 1⟩ = -10 ∧ (0 : Int) ≠ -10 := by
  refine ⟨?_, by decide, by decide⟩
  rfl

/-! Cost audit (`src/core/services/appointment_cost_audit_service.py`).
Python's `statistics.mean` and `statistics.stdev` are modelled over `ℚ`:
`mean` directly, and the standard deviation through its square, the sample
variance `sampleVar` (division by `n - 1`).  The code's comparisons
`deviation_value <= 0` and `diff > 2 * deviation_value` are embedded as
`sampleVar ≤ 0` and `diff ^ 2 > 4 * sampleVar`, which over the reals are
equivalent because `deviation_value = sqrt sampleVar ≥ 0` and `diff ≥ 0`. -/

/-- Arithmetic mean of a list of rationals (`statistics.mean`). -/
def listMean (l : List ℚ) : ℚ := l.sum / l.length

/-- Sample variance, the square of `statistics.stdev`: sum of squared
deviations from the mean, divided by `n - 1`.  (In `ℚ`, the degenerate
`n ≤ 1` cases give `0` by division by zero; the code never takes the
standard deviation of fewer than two values.) -/
def sampleVar (l : List ℚ) : ℚ :=
  (l.map (fun x => (x - listMean l) ^ 2)).sum / ((l.length : ℚ) - 1)

/-- Model of Python `list.remove`: drop the first occurrence of `c`. -/
def removeFirst : List ℚ → ℚ → List ℚ
  | [], _ => []
  | x :: t, c => if x = c then t else x :: removeFirst t c

theorem removeFirst_length {l : List ℚ} {c : ℚ} (h : c ∈ l) :
    (removeFirst l c).length + 1 = l.length := by
  induction l with
  | nil => cases h
  | cons x t ih =>
      by_cases hx : x = c
      · simp [removeFirst, hx]
      · rcases List.mem_cons.mp h with rfl | hm
        · exact absurd rfl hx
        · simp [removeFirst, hx, ih hm]

/-- Python whitespace for `str.strip()` and `str.split()` (the ASCII subset;
the dataset's strings contain no exotic Unicode whitespace). -/
def pyWhitespace (c : Char) : Bool :=
  c = ' ' || c = '\t' || c = '\n' || c = '\r' || c = '\x0b' || c = '\x0c'

/-- Model of Python `str.strip()` on a character list: drop leading and
trailing whitespace. -/
def stripChars (l : List Char) : List Char :=
  ((l.dropWhile pyWhitespace).reverse.dropWhile pyWhitespace).reverse

/-- Model of Python `str.strip()`. -/
def pyStrip (s : String) : String := ⟨stripChars s.data⟩

/-- Embedding of `AppointmentCostAuditService._normalize_specialty`: a truthy
string with non-blank strip is stripped, anything else becomes
`"sin_especialidad"`. -/
def normalize_specialty (value : Option String) : String :=
  match value with
  | some s => if pyStrip s ≠ "" then pyStrip s else "sin_especialidad"
  | none => "sin_especialidad"

/-- Records with a non-null cost, paired with their normalized specialty and
cost: the `processed_costs` list of `analyze` (the cost carried explicitly). -/
def processedCosts (records : List AppointmentRecord) :
    List (AppointmentRecord × String × ℚ) :=
  records.filterMap (fun r =>
    (r.costo).map (fun c => (r, normalize_specialty r.especialidad, c)))

/-- Contents of `specialty_costs[spec]`: the defaultdict of `analyze` is
represented by its lookup, the costs of the processed records of that
specialty, in order. -/
def specialtyCosts (records : List AppointmentRecord) (spec : String) : List ℚ :=
  ((processedCosts records).filter (fun t => t.2.1 = spec)).map (fun t => t.2.2)

/-- Entry of the anomaly list (`CostAnomalyEntry`); `deviation` is
`abs(costo - mean(others))`. -/
structure CostAnomalyEntry where
  id_cita : String
  id_paciente : Option Int
  especialidad : String
  costo : ℚ
  deviation : ℚ
deriving Repr, DecidableEq

/-- Report of `AppointmentCostAuditService.analyze` (`CostAuditReport`); the
`summaries` field is not modelled because its `std_dev` is an irrational
square root and no claim concerns it. -/
structure CostAuditReport where
  total_records : Nat
  analyzed_records : Nat
  anomalies : List CostAnomalyEntry
deriving Repr, DecidableEq

/-- Body of the anomaly loop of `analyze` for one processed record: skip
specialties with at most one cost, drop this record's cost, skip when the
leave-one-out deviation is not positive, and flag when the distance to the
leave-one-out mean exceeds twice the leave-one-out standard deviation
(squared comparison, see the section comment). -/
def anomalyFor (records : List AppointmentRecord)
    (t : AppointmentRecord × String × ℚ) : Option CostAnomalyEntry :=
  let costs := specialtyCosts records t.2.1
  if costs.length ≤ 1 then none
  else
    let others := removeFirst costs t.2.2
    if others = [] then none
    else
      let varLoo := if 1 < others.length then sampleVar others else 0
      if varLoo ≤ 0 then none
      else
        let diff := |t.2.2 - listMean others|
        if diff ^ 2 > 4 * varLoo then
          some ⟨t.1.id_cita, t.1.id_paciente, t.2.1, t.2.2, diff⟩
        else none

/-- Embedding of `AppointmentCostAuditService.analyze`: process the records,
flag anomalies, and sort them by decreasing deviation (stable, like the
Python `sort(key=lambda a: -a.deviation)`). -/
def cost_audit_analyze (records : List AppointmentRecord) : CostAuditReport :=
  let processed := processedCosts records
  let anomalies := processed.filterMap (anomalyFor records)
  { total_records := records.length
    analyzed_records := processed.length
    anomalies := sortLe (fun a b => b.deviation ≤ a.deviation) anomalies }

/-- Predicate written from the amended claim: an appointment with non-null
cost is anomalous when its (normalized) specialty has at least two recorded
costs, the other costs of the specialty have positive sample variance, and
its cost differs from the mean of the other costs by more than twice their
standard deviation (stated squared). -/
def amendedCostAnomaly (records : List AppointmentRecord)
    (r : AppointmentRecord) : Prop :=
  match r.costo with
  | none => False
  | some c =>
      let costs := specialtyCosts records (normalize_specialty r.especialidad)
      let others := removeFirst costs c
      2 ≤ costs.length ∧ 0 < sampleVar others ∧
        (c - listMean others) ^ 2 > 4 * sampleVar others

/-- Predicate written from the original claim C1: cost non-null, specialty
with at least two recorded costs, and cost more than twice the leave-one-out
standard deviation away from the whole-specialty mean. -/
def claimCostAnomaly (records : List AppointmentRecord)
    (r : AppointmentRecord) : Prop :=
  match r.costo with
  | none => False
  | some c =>
      let costs := specialtyCosts records (normalize_specialty r.especialidad)
      let others := removeFirst costs c
      2 ≤ costs.length ∧ (c - listMean costs) ^ 2 > 4 * sampleVar others

theorem mem_specialtyCosts {records : List AppointmentRecord}
    {r : AppointmentRecord} {c : ℚ} (hr : r ∈ records) (hc : r.costo = some c) :
    c ∈ specialtyCosts records (normalize_specialty r.especialidad) := by
  have hp : (r, normalize_specialty r.especialidad, c) ∈ processedCosts records := by
    simp only [processedCosts, List.mem_filterMap]
    exact ⟨r, hr, by simp [hc]⟩
  simp only [specialtyCosts, List.mem_map]
  exact ⟨(r, normalize_specialty r.especialidad, c),
    List.mem_filter.mpr ⟨hp, by simp⟩, rfl⟩

theorem sampleVar_nonneg (l : List ℚ) : 0 ≤ sampleVar l := by
  rcases l with _ | ⟨x, t⟩
  · simp [sampleVar, listMean]
  · apply div_nonneg
    · exact List.sum_nonneg (by
        intro q hq
        rcases List.mem_map.mp hq with ⟨y, _, rfl⟩
        positivity)
    · have : (1 : ℚ) ≤ ((x :: t).length : ℚ) := by
        exact_mod_cast Nat.succ_le_of_lt (Nat.pos_of_ne_zero (by simp))
      linarith

theorem sampleVar_singleton (x : ℚ) : sampleVar [x] = 0 := by
  simp [sampleVar, listMean]

theorem anomalyFor_eq_some_iff (records : List AppointmentRecord)
    (r : AppointmentRecord) (c : ℚ) (e : CostAnomalyEntry)
    (hmem : c ∈ specialtyCosts records (normalize_specialty r.especialidad))
    (hc : r.costo = some c) :
    anomalyFor records (r, normalize_specialty r.especialidad, c) = some e ↔
      amendedCostAnomaly records r ∧
        e = ⟨r.id_cita, r.id_paciente, normalize_specialty r.especialidad, c,
          |c - listMean (removeFirst
            (specialtyCosts records (normalize_specialty r.especialidad)) c)|⟩ := by
  have hsq : |c - listMean (removeFirst
      (specialtyCosts records (normalize_specialty r.especialidad)) c)| ^ 2 =
      (c - listMean (removeFirst
        (specialtyCosts records (normalize_specialty r.especialidad)) c)) ^ 2 :=
    sq_abs _
  simp only [anomalyFor, amendedCostAnomaly, hc]
  by_cases hlen : (specialtyCosts records (normalize_specialty r.especialidad)).length ≤ 1
  · have h2 : ¬ (2 ≤ (specialtyCosts records (normalize_specialty r.especialidad)).length) := by
      omega
    simp [hlen, h2]
  · have hne : removeFirst (specialtyCosts records (normalize_specialty r.especialidad)) c ≠ [] := by
      have hl := removeFirst_length hmem
      intro hnil
      rw [hnil] at hl
      simp at hl
      omega
    by_cases hlen2 : 1 < (removeFirst
        (specialtyCosts records (normalize_specialty r.especialidad)) c).length
    · by_cases hvar : sampleVar (removeFirst
          (specialtyCosts records (normalize_specialty r.especialidad)) c) ≤ 0
      · have hnpos : ¬ (0 < sampleVar (removeFirst
            (specialtyCosts records (normalize_specialty r.especialidad)) c)) := by
          linarith
        simp [hlen, hne, hlen2, hvar, hnpos]
      · have h2 : 2 ≤ (specialtyCosts records (normalize_specialty r.especialidad)).length := by
          omega
        have hpos : 0 < sampleVar (removeFirst
            (specialtyCosts records (normalize_specialty r.especialidad)) c) := by
          linarith
        by_cases hdiff : |c - listMean (removeFirst
            (specialtyCosts records (normalize_specialty r.especialidad)) c)| ^ 2 >
            4 * sampleVar (removeFirst
              (specialtyCosts records (normalize_specialty r.especialidad)) c)
        · have hdiff' := hsq ▸ hdiff
          simp [hlen, hne, hlen2, hvar, hdiff, hdiff', h2, hpos, eq_comm]
        · have hdiff' : ¬ ((c - listMean (removeFirst
              (specialtyCosts records (normalize_specialty r.especialidad)) c)) ^ 2 >
              4 * sampleVar (removeFirst
                (specialtyCosts records (normalize_specialty r.especialidad)) c)) := by
            rw [← hsq]
            exact hdiff
          simp [hlen, hne, hlen2, hvar, hdiff, hdiff']
    · have hone : (removeFirst
          (specialtyCosts records (normalize_specialty r.especialidad)) c).length = 1 := by
        rcases hmo : (removeFirst
            (specialtyCosts records (normalize_specialty r.especialidad)) c) with _ | ⟨x, t⟩
        · exact absurd hmo hne
        · rw [hmo] at hlen2
          simp at hlen2
          simp [hlen2]
      have hvar0 : sampleVar (removeFirst
          (specialtyCosts records (normalize_specialty r.especialidad)) c) = 0 := by
        rcases List.length_eq_one.mp hone with ⟨x, hx⟩
        rw [hx]
        exact sampleVar_singleton x
      have hnpos : ¬ (0 < sampleVar (removeFirst
          (specialtyCosts records (normalize_specialty r.especialidad)) c)) := by
        rw [hvar0]
        simp
      simp [hlen, hne, hlen2, hvar0, hnpos]

theorem mem_processedCosts_iff (records : List AppointmentRecord)
    (t : AppointmentRecord × String × ℚ) :
    t ∈ processedCosts records ↔
      ∃ r ∈ records, ∃ c, r.costo = some c ∧
        t = (r, normalize_specialty r.especialidad, c) := by
  simp only [processedCosts, List.mem_filterMap]
  constructor
  · rintro ⟨r, hr, hmap⟩
    rcases hco : r.costo with _ | c
    · rw [hco] at hmap
      simp at hmap
    · rw [hco] at hmap
      simp at hmap
      exact ⟨r, hr, c, hco, hmap.symm⟩
  · rintro ⟨r, hr, c, hco, rfl⟩
    exact ⟨r, hr, by simp [hco]⟩

/-- Claim C1 (amended): the anomaly list of the cost audit contains exactly
the appointments with a non-null cost whose normalized specialty (blank or
null becomes `sin_especialidad`) has at least two recorded costs, whose
leave-one-out sample variance is positive, and whose cost differs from the
leave-one-out mean by more than twice the leave-one-out standard deviation;
the recorded deviation is the distance to the leave-one-out mean. -/
theorem C1_cost_anomalies (records : List AppointmentRecord)
    (e : CostAnomalyEntry) :
    e ∈ (cost_audit_analyze records).anomalies ↔
      ∃ r ∈ records, ∃ c, r.costo = some c ∧
        amendedCostAnomaly records r ∧
        e = ⟨r.id_cita, r.id_paciente, normalize_specialty r.especialidad, c,
          |c - listMean (removeFirst
            (specialtyCosts records (normalize_specialty r.especialidad)) c)|⟩ := by
  have hperm : (cost_audit_analyze records).anomalies.Perm
      ((processedCosts records).filterMap (anomalyFor records)) :=
    sortLe_perm _ _
  rw [hperm.mem_iff, List.mem_filterMap]
  constructor
  · rintro ⟨t, ht, he⟩
    rcases (mem_processedCosts_iff records t).mp ht with ⟨r, hr, c, hco, rfl⟩
    have hmem := mem_specialtyCosts hr hco
    rcases (anomalyFor_eq_some_iff records r c e hmem hco).mp he with ⟨ha, he'⟩
    exact ⟨r, hr, c, hco, ha, he'⟩
  · rintro ⟨r, hr, c, hco, ha, he⟩
    refine ⟨(r, normalize_specialty r.especialidad, c),
      (mem_processedCosts_iff records _).mpr ⟨r, hr, c, hco, rfl⟩, ?_⟩
    have hmem := mem_specialtyCosts hr hco
    exact (anomalyFor_eq_some_iff records r c e hmem hco).mpr ⟨ha, he⟩

/-- Cardiología appointments with costs 9, 1, 1, 1: the 9 is more than twice
the whole-specialty deviation from the specialty mean (the original claim
flags it), but the leave-one-out deviation of `[1, 1, 1]` is zero, so the
code skips it. -/
def costCounterexampleApps : List AppointmentRecord :=
  [⟨"A", some 1, none, some "Cardiología", none, some 9, none⟩,
   ⟨"B", some 2, none, some "Cardiología", none, some 1, none⟩,
   ⟨"C", some 3, none, some "Cardiología", none, some 1, none⟩,
   ⟨"D", some 4, none, some "Cardiología", none, some 1, none⟩]

theorem costCounterexample_specialty :
    normalize_specialty (some "Cardiología") = "Cardiología" := by decide

/-- Counterexample to C1 as stated: on `costCounterexampleApps` the code's
anomaly list is empty, yet the cost-9 appointment satisfies the claim's
predicate (cost differs from the specialty mean by more than twice the
leave-one-out standard deviation, which is zero here). -/
theorem C1_counterexample :
    (cost_audit_analyze costCounterexampleApps).anomalies = [] ∧
    claimCostAnomaly costCounterexampleApps
      ⟨"A", some 1, none, some "Cardiología", none, some 9, none⟩ := by
  have hspec : specialtyCosts costCounterexampleApps "Cardiología" = [9, 1, 1, 1] := by
    simp [specialtyCosts, processedCosts, costCounterexampleApps,
      costCounterexample_specialty]
  have hothersA : removeFirst [9, 1, 1, 1] 9 = ([1, 1, 1] : List ℚ) := by
    norm_num [removeFirst]
  have hothersB : removeFirst [9, 1, 1, 1] 1 = ([9, 1, 1] : List ℚ) := by
    norm_num [removeFirst]
  have hvarA : sampleVar [1, 1, 1] = 0 := by
    norm_num [sampleVar, listMean]
  have hmeanB : listMean [9, 1, 1] = 11 / 3 := by
    norm_num [listMean]
  have hvarB : sampleVar [9, 1, 1] = 64 / 3 := by
    norm_num [sampleVar, listMean]
  have hA : anomalyFor costCounterexampleApps
      (⟨"A", some 1, none, some "Cardiología", none, some 9, none⟩,
        "Cardiología", (9 : ℚ)) = none := by
    simp only [anomalyFor, hspec, hothersA, hvarA]
    norm_num
  have hB : ∀ s : String, ∀ pid : Option Int,
      anomalyFor costCounterexampleApps
        (⟨s, pid, none, some "Cardiología", none, some 1, none⟩,
          "Cardiología", (1 : ℚ)) = none := by
    intro s pid
    simp only [anomalyFor, hspec, hothersB, hvarB, hmeanB, sq_abs]
    norm_num
  constructor
  · show sortLe _ ((processedCosts costCounterexampleApps).filterMap
      (anomalyFor costCounterexampleApps)) = []
    have hproc : processedCosts costCounterexampleApps =
        [(⟨"A", some 1, none, some "Cardiología", none, some 9, none⟩, "Cardiología", 9),
         (⟨"B", some 2, none, some "Cardiología", none, some 1, none⟩, "Cardiología", 1),
         (⟨"C", some 3, none, some "Cardiología", none, some 1, none⟩, "Cardiología", 1),
         (⟨"D", some 4, none, some "Cardiología", none, some 1, none⟩, "Cardiología", 1)] := by
      simp [processedCosts, costCounterexampleApps, costCounterexample_specialty]
    rw [hproc]
    simp only [List.filterMap_cons, hA, hB]
    simp [sortLe]
  · simp only [claimCostAnomaly, costCounterexample_specialty, hspec, hothersA, hvarA]
    norm_num [listMean]

/-! Generic insertion-ordered association lists, the model of Python dicts:
`alistUpd f d m k` is `m[k] = f(m.get(k, d))` (keys keep first-insertion
order, new keys are appended), `alistGetD` is `m.get(k, d)`, `alistFind` is
`m.get(k)`. -/

/-- Update-or-insert on an association list. -/
def alistUpd {κ ν : Type} [DecidableEq κ] (f : ν → ν) (d : ν)
    (m : List (κ × ν)) (k : κ) : List (κ × ν) :=
  match m with
  | [] => [(k, f d)]
  | (k', v) :: t => if k' = k then (k', f v) :: t else (k', v) :: alistUpd f d t k

/-- Lookup with default. -/
def alistGetD {κ ν : Type} [DecidableEq κ] (m : List (κ × ν)) (k : κ)
    (d : ν) : ν :=
  match m with
  | [] => d
  | (k', v) :: t => if k' = k then v else alistGetD t k d

/-- Lookup. -/
def alistFind {κ ν : Type} [DecidableEq κ] (m : List (κ × ν)) (k : κ) :
    Option ν :=
  match m with
  | [] => none
  | (k', v) :: t => if k' = k then some v else alistFind t k

/-- First occurrences of a list not already in `seen`, in order. -/
def dedupAux {α : Type} [DecidableEq α] : List α → List α → List α
  | [], _ => []
  | a :: t, seen =>
      if a ∈ seen then dedupAux t seen else a :: dedupAux t (a :: seen)

/-- First occurrences of a list, in order: the key order of a Python dict
built by insertion. -/
def dedupFirst {α : Type} [DecidableEq α] (l : List α) : List α := dedupAux l []

theorem alistGetD_upd {κ ν : Type} [DecidableEq κ] (f : ν → ν) (d : ν)
    (m : List (κ × ν)) (k k' : κ) :
    alistGetD (alistUpd f d m k) k' d =
      if k' = k then f (alistGetD m k d) else alistGetD m k' d := by
  induction m with
  | nil =>
      by_cases h : k' = k
      · simp [alistUpd, alistGetD, h]
      · have h' : ¬ k = k' := fun e => h e.symm
        simp [alistUpd, alistGetD, h, h']
  | cons p t ih =>
      rcases p with ⟨k2, v⟩
      by_cases h2 : k2 = k
      · subst h2
        by_cases h : k' = k2
        · simp [alistUpd, alistGetD, h]
        · have h' : ¬ k2 = k' := fun e => h e.symm
          simp [alistUpd, alistGetD, h, h']
      · by_cases h : k' = k2
        · subst h
          have h2' : ¬ k = k' := fun e => h2 e.symm
          simp [alistUpd, alistGetD, h2, h2']
        · have h' : ¬ k2 = k' := fun e => h e.symm
          simp [alistUpd, alistGetD, h2, h, h', ih]

theorem alistFind_upd {κ ν : Type} [DecidableEq κ] (f : ν → ν) (d : ν)
    (m : List (κ × ν)) (k k' : κ) :
    alistFind (alistUpd f d m k) k' =
      if k' = k then
        some (f (match alistFind m k with | none => d | some v => v))
      else alistFind m k' := by
  induction m with
  | nil =>
      by_cases h : k' = k
      · simp [alistUpd, alistFind, h]
      · have h' : ¬ k = k' := fun e => h e.symm
        simp [alistUpd, alistFind, h, h']
  | cons p t ih =>
      rcases p with ⟨k2, v⟩
      by_cases h2 : k2 = k
      · subst h2
        by_cases h : k' = k2
        · simp [alistUpd, alistFind, h]
        · have h' : ¬ k2 = k' := fun e => h e.symm
          simp [alistUpd, alistFind, h, h']
      · by_cases h : k' = k2
        · subst h
          have h2' : ¬ k = k' := fun e => h2 e.symm
          simp [alistUpd, alistFind, h2, h2']
        · have h' : ¬ k2 = k' := fun e => h e.symm
          simp [alistUpd, alistFind, h2, h, h', ih]

theorem alistUpd_keys {κ ν : Type} [DecidableEq κ] (f : ν → ν) (d : ν)
    (m : List (κ × ν)) (k : κ) :
    (alistUpd f d m k).map (fun p => p.1) =
      if k ∈ m.map (fun p => p.1) then m.map (fun p => p.1)
      else m.map (fun p => p.1) ++ [k] := by
  induction m with
  | nil => simp [alistUpd]
  | cons p t ih =>
      rcases p with ⟨k2, v⟩
      by_cases h2 : k2 = k
      · subst h2
        simp [alistUpd]
      · have : ¬ k = k2 := fun h => h2 h.symm
        by_cases hm : k ∈ t.map (fun p => p.1) <;>
          simp [alistUpd, h2, hm, this, ih]

theorem dedupAux_congr {α : Type} [DecidableEq α] (l : List α)
    (s1 s2 : List α) (h : ∀ x, x ∈ s1 ↔ x ∈ s2) :
    dedupAux l s1 = dedupAux l s2 := by
  induction l generalizing s1 s2 with
  | nil => simp [dedupAux]
  | cons a t ih =>
      by_cases ha : a ∈ s1
      · simp [dedupAux, ha, (h a).mp ha, ih _ _ h]
      · have ha2 : a ∉ s2 := fun hx => ha ((h a).mpr hx)
        simp only [dedupAux, ha, ha2, if_neg, reduceIte]
        rw [ih (a :: s1) (a :: s2) (by
          intro x
          simp [h x])]

/-! Text utilities shared by the duplicate-detection and text-normalization
services.  Python `str.split()` (split on whitespace runs, dropping empty
parts) is modelled by `splitWs`, written with an accumulator so that it is
structurally recursive; `" ".join(...)` by `joinSpace`; `str.lower()` by a
character table covering ASCII and the Spanish uppercase accented letters the
dataset uses. -/

/-- Accumulator form of Python `str.split()`: `acc` holds the current word
reversed. -/
def splitWsAux : List Char → List Char → List (List Char)
  | [], [] => []
  | [], a :: acc => [(a :: acc).reverse]
  | c :: cs, acc =>
      if pyWhitespace c then
        match acc with
        | [] => splitWsAux cs []
        | a :: acc' => (a :: acc').reverse :: splitWsAux cs []
      else splitWsAux cs (c :: acc)

/-- Model of Python `str.split()` on a character list. -/
def splitWs (l : List Char) : List (List Char) := splitWsAux l []

/-- Model of `" ".join(...)` on character lists. -/
def joinSpace : List (List Char) → List Char
  | [] => []
  | [w] => w
  | w :: v :: ws => w ++ ' ' :: joinSpace (v :: ws)

/-- Lowercasing table: ASCII A-Z plus the uppercase accented letters the
dataset uses (the modelled fragment of the Unicode case tables behind
Python's `str.lower()`). -/
def lowerTable : List (Char × Char) :=
  [('A', 'a'), ('B', 'b'), ('C', 'c'), ('D', 'd'), ('E', 'e'), ('F', 'f'),
   ('G', 'g'), ('H', 'h'), ('I', 'i'), ('J', 'j'), ('K', 'k'), ('L', 'l'),
   ('M', 'm'), ('N', 'n'), ('O', 'o'), ('P', 'p'), ('Q', 'q'), ('R', 'r'),
   ('S', 's'), ('T', 't'), ('U', 'u'), ('V', 'v'), ('W', 'w'), ('X', 'x'),
   ('Y', 'y'), ('Z', 'z'),
   ('Á', 'á'), ('É', 'é'), ('Í', 'í'), ('Ó', 'ó'), ('Ú', 'ú'), ('Ñ', 'ñ'),
   ('Ü', 'ü')]

/-- Model of Python `str.lower()` on one character. -/
def pyLowerChar (c : Char) : Char :=
  match alistFind lowerTable c with
  | some d => d
  | none => c

/-! Duplicate detection (`src/core/services/duplicate_detection_service.py`). -/

/-- Embedding of `DuplicateDetectionService._normalize`:
`" ".join(text.split()).lower()`. -/
def dup_normalize (s : String) : String :=
  ⟨(joinSpace (splitWs s.data)).map pyLowerChar⟩

/-- Embedding of `DuplicateDetectionService._completeness_score`: the number
of Python-truthy values among the six optional fields (note that an `edad`
of `0` is falsy in Python). -/
def completeness_score (r : PatientRecord) : Nat :=
  (if truthyStr r.fecha_nacimiento then 1 else 0) +
  (if truthyInt r.edad then 1 else 0) +
  (if truthyStr r.sexo then 1 else 0) +
  (if truthyStr r.email then 1 else 0) +
  (if truthyStr r.telefono then 1 else 0) +
  (if truthyStr r.ciudad then 1 else 0)

/-- Count written from the claim: the number of non-empty values among the
six optional fields, where any present integer age (including 0) counts. -/
def claimNonEmptyScore (r : PatientRecord) : Nat :=
  (if truthyStr r.fecha_nacimiento then 1 else 0) +
  (if r.edad.isSome then 1 else 0) +
  (if truthyStr r.sexo then 1 else 0) +
  (if truthyStr r.email then 1 else 0) +
  (if truthyStr r.telefono then 1 else 0) +
  (if truthyStr r.ciudad then 1 else 0)

/-- Embedding of `DuplicateDetectionService._key_by_birthdate`: `None` unless
both `nombre` and `fecha_nacimiento` are truthy; the name is normalized, the
birth date kept verbatim. -/
def key_by_birthdate (r : PatientRecord) : Option (String × String) :=
  match r.fecha_nacimiento with
  | none => none
  | some fn =>
      if r.nombre ≠ "" && fn ≠ "" then some (dup_normalize r.nombre, fn) else none

/-- Embedding of `DuplicateDetectionService._key_by_city`: `None` unless both
`nombre` and `ciudad` are truthy; both parts normalized. -/
def key_by_city (r : PatientRecord) : Option (String × String) :=
  match r.ciudad with
  | none => none
  | some ci =>
      if r.nombre ≠ "" && ci ≠ "" then
        some (dup_normalize r.nombre, dup_normalize ci)
      else none

/-- Append `v` to the bucket of key `k`, keeping first-occurrence key order:
the model of `defaultdict(list)[key].append(record)`. -/
def alistAppend (m : List ((String × String) × List PatientRecord))
    (k : String × String) (v : PatientRecord) :
    List ((String × String) × List PatientRecord) :=
  match m with
  | [] => [(k, [v])]
  | (k', vs) :: t =>
      if k' = k then (k', vs ++ [v]) :: t else (k', vs) :: alistAppend t k v

/-- Embedding of `DuplicateDetectionService._group_by`: fold the records into
an insertion-ordered association list, skipping records without a key. -/
def group_by (records : List PatientRecord)
    (key_fn : PatientRecord → Option (String × String)) :
    List ((String × String) × List PatientRecord) :=
  records.foldl (fun m r =>
    match key_fn r with
    | none => m
    | some k => alistAppend m k r) []

/-- Sort relation of `_select_canonical`: by the Python key
`(-completeness_score, id_paciente)` in ascending lexicographic order. -/
def canonLe (r s : PatientRecord) : Bool :=
  decide (completeness_score s < completeness_score r) ||
    (decide (completeness_score s = completeness_score r) &&
      decide (r.id_paciente ≤ s.id_paciente))

/-- Embedding of `DuplicateDetectionService._select_canonical`: stable sort
by `(-score, id)` and split off the head.  (Python indexes `sorted_group[0]`,
which raises on an empty group; the service only calls it on groups of two or
more, and the empty case returns a dummy record here.) -/
def select_canonical (group : List PatientRecord) :
    PatientRecord × List PatientRecord :=
  match sortLe canonLe group with
  | [] => (⟨0, "", none, none, none, none, none, none, ""⟩, [])
  | c :: rest => (c, rest)

theorem canonLe_iff (r s : PatientRecord) :
    canonLe r s = true ↔
      completeness_score s < completeness_score r ∨
        (completeness_score s = completeness_score r ∧
          r.id_paciente ≤ s.id_paciente) := by
  simp [canonLe]

theorem canonLe_total (r s : PatientRecord) :
    canonLe r s ∨ canonLe s r := by
  rw [canonLe_iff, canonLe_iff]
  omega

theorem canonLe_trans (r s t : PatientRecord) (h1 : canonLe r s = true)
    (h2 : canonLe s t = true) : canonLe r t = true := by
  rw [canonLe_iff] at h1 h2 ⊢
  omega

/-- Claim C3 (amended): in every group of two or more records sharing a
normalized (name, birthdate) key, the canonical record is in the group, has
the maximal Python-truthy completeness score, and has the least id among the
score-maximal records. -/
theorem C3_canonical_selection (records : List PatientRecord)
    (k : String × String) (g : List PatientRecord)
    (hg : (k, g) ∈ group_by records key_by_birthdate)
    (hlen : 2 ≤ g.length) :
    (select_canonical g).1 ∈ g ∧
      ∀ r ∈ g, completeness_score r ≤ completeness_score (select_canonical g).1 ∧
        (completeness_score r = completeness_score (select_canonical g).1 →
          (select_canonical g).1.id_paciente ≤ r.id_paciente) := by
  have hperm := sortLe_perm canonLe g
  have hpair := sortLe_pairwise canonLe canonLe_total canonLe_trans g
  rcases hs : sortLe canonLe g with _ | ⟨c, rest⟩
  · rw [hs] at hperm
    have := hperm.length_eq
    simp at this
    omega
  · rw [hs] at hperm hpair
    have hc : (select_canonical g).1 = c := by
      simp [select_canonical, hs]
    rw [hc]
    constructor
    · exact hperm.mem_iff.mp (by simp)
    · intro r hr
      have hr' := hperm.mem_iff.mpr hr
      rcases List.mem_cons.mp hr' with rfl | hrr
      · exact ⟨le_refl _, fun _ => le_refl _⟩
      · rcases hpair with _ | ⟨hcr, _⟩
        have := (canonLe_iff c r).mp (hcr r hrr)
        omega

/-- Witness for C3: two records named "Ana María" with the same birth date;
the second has two truthy fields against one, so it is canonical. -/
theorem C3_canonical_selection_witness :
    (select_canonical
        [⟨1, "Ana María", some "1990-01-01", none, none, none, none, none, "unknown"⟩,
         ⟨2, "Ana María", some "1990-01-01", none, some "F", some "a@x.co", none, none,
          "unknown"⟩]).1 ∈
      [⟨1, "Ana María", some "1990-01-01", none, none, none, none, none, "unknown"⟩,
       (⟨2, "Ana María", some "1990-01-01", none, some "F", some "a@x.co", none, none,
        "unknown"⟩ : PatientRecord)] ∧
    ∀ r ∈ [⟨1, "Ana María", some "1990-01-01", none, none, none, none, none, "unknown"⟩,
        (⟨2, "Ana María", some "1990-01-01", none, some "F", some "a@x.co", none, none,
         "unknown"⟩ : PatientRecord)],
      completeness_score r ≤ completeness_score (select_canonical
        [⟨1, "Ana María", some "1990-01-01", none, none, none, none, none, "unknown"⟩,
         ⟨2, "Ana María", some "1990-01-01", none, some "F", some "a@x.co", none, none,
          "unknown"⟩]).1 ∧
      (completeness_score r = completeness_score (select_canonical
          [⟨1, "Ana María", some "1990-01-01", none, none, none, none, none, "unknown"⟩,
           ⟨2, "Ana María", some "1990-01-01", none, some "F", some "a@x.co", none, none,
            "unknown"⟩]).1 →
        (select_canonical
          [⟨1, "Ana María", some "1990-01-01", none, none, none, none, none, "unknown"⟩,
           ⟨2, "Ana María", some "1990-01-01", none, some "F", some "a@x.co", none, none,
            "unknown"⟩]).1.id_paciente ≤ r.id_paciente) :=
  C3_canonical_selection
    [⟨1, "Ana María", some "1990-01-01", none, none, none, none, none, "unknown"⟩,
     ⟨2, "Ana María", some "1990-01-01", none, some "F", some "a@x.co", none, none,
      "unknown"⟩]
    (dup_normalize "Ana María", "1990-01-01") _ (by decide) (by decide)

/-- Counterexample to C3 as stated: with an `edad` of 0 (non-empty but
Python-falsy), the claim's non-empty counts tie and would pick id 1, while
the code's truthiness score makes id 2 canonical. -/
theorem C3_counterexample :
    (select_canonical
        [⟨1, "Juan Pérez", some "1990-01-01", some 0, none, none, none, none, "child"⟩,
         ⟨2, "Juan Pérez", some "1990-01-01", none, some "M", none, none, none,
          "unknown"⟩]).1.id_paciente = 2 ∧
    claimNonEmptyScore
        ⟨1, "Juan Pérez", some "1990-01-01", some 0, none, none, none, none, "child"⟩ =
      claimNonEmptyScore
        ⟨2, "Juan Pérez", some "1990-01-01", none, some "M", none, none, none,
         "unknown"⟩ ∧
    ((1 : Int) < 2) ∧
    key_by_birthdate
        ⟨1, "Juan Pérez", some "1990-01-01", some 0, none, none, none, none, "child"⟩ =
      key_by_birthdate
        ⟨2, "Juan Pérez", some "1990-01-01", none, some "M", none, none, none,
         "unknown"⟩ := by
  decide

/-- Entry of the duplicate-consolidation log
(`DuplicateConsolidationLogEntry`). -/
structure DuplicateConsolidationLogEntry where
  canonical_id : Int
  canonical_nombre : String
  criteria : String
  duplicate_ids : List Int
  note : String
deriving Repr, DecidableEq

/-- Note text of a log entry (the conditional f-string of
`detect_duplicates`; `'fecha' in criteria_name` holds exactly for the
birthdate criteria of the two in `criteria_set`). -/
def dupNote (criteria : String) : String :=
  "Se identificaron registros con el mismo nombre y " ++
    (if criteria = "nombre+fecha_nacimiento" then "fecha de nacimiento"
     else "ciudad") ++
    " y se archivaron los ids reemplazados."

/-- Loop state of `detect_duplicates`: the log entries so far, the archived
ids (a Python set, modelled as a list used through membership), and the two
counters. -/
structure DupState where
  entries : List DuplicateConsolidationLogEntry
  archived : List Int
  total_groups : Nat
  total_duplicates : Nat

/-- Body of the `for key, group in grouped.items()` loop of
`detect_duplicates` for one group. -/
def processGroup (criteria : String) (st : DupState)
    (kg : (String × String) × List PatientRecord) : DupState :=
  if kg.2.length < 2 then st
  else
    let canonical := (select_canonical kg.2).1
    let others := (select_canonical kg.2).2
    let new_duplicates := others.filter (fun r =>
      r.id_paciente ≠ canonical.id_paciente && r.id_paciente ∉ st.archived)
    if new_duplicates = [] then st
    else
      { entries := st.entries ++
          [⟨canonical.id_paciente, canonical.nombre, criteria,
            new_duplicates.map (fun r => r.id_paciente), dupNote criteria⟩]
        archived := st.archived ++ new_duplicates.map (fun r => r.id_paciente)
        total_groups := st.total_groups + 1
        total_duplicates := st.total_duplicates + new_duplicates.length }

/-- One criteria pass of `detect_duplicates`: fold the groups. -/
def processCriteria (records : List PatientRecord) (criteria : String)
    (key_fn : PatientRecord → Option (String × String)) (st : DupState) :
    DupState :=
  (group_by records key_fn).foldl (processGroup criteria) st

/-- Report of `DuplicateDetectionService.detect_duplicates`
(`DuplicateConsolidationReport`). -/
structure DuplicateConsolidationReport where
  total_records : Nat
  total_groups : Nat
  total_duplicates : Nat
  log_entries : List DuplicateConsolidationLogEntry
deriving Repr, DecidableEq

/-- Embedding of `DuplicateDetectionService.detect_duplicates`: the birthdate
pass then the city pass, sharing the archived-id set. -/
def detect_duplicates (records : List PatientRecord) :
    DuplicateConsolidationReport :=
  let st1 := processCriteria records "nombre+fecha_nacimiento" key_by_birthdate
    ⟨[], [], 0, 0⟩
  let st2 := processCriteria records "nombre+ciudad" key_by_city st1
  { total_records := records.length
    total_groups := st2.total_groups
    total_duplicates := st2.total_duplicates
    log_entries := st2.entries }

/-- Disjointness of the duplicate-id lists of two log entries. -/
def disjointIds (e1 e2 : DuplicateConsolidationLogEntry) : Prop :=
  ∀ i ∈ e1.duplicate_ids, i ∉ e2.duplicate_ids

/-- Invariant of the `detect_duplicates` loops. -/
def DupInv (st : DupState) : Prop :=
  st.total_duplicates =
      (st.entries.map (fun e => e.duplicate_ids.length)).sum ∧
    (∀ e ∈ st.entries, ∀ i ∈ e.duplicate_ids, i ∈ st.archived) ∧
    (∀ e ∈ st.entries, e.canonical_id ∉ e.duplicate_ids) ∧
    st.entries.Pairwise disjointIds

theorem processGroup_inv (criteria : String) (st : DupState)
    (kg : (String × String) × List PatientRecord) (h : DupInv st) :
    DupInv (processGroup criteria st kg) := by
  rcases h with ⟨hsum, harch, hcan, hpair⟩
  rw [processGroup]
  by_cases hlen : kg.2.length < 2
  · rw [if_pos hlen]
    exact ⟨hsum, harch, hcan, hpair⟩
  · rw [if_neg hlen]
    by_cases hnew : ((select_canonical kg.2).2.filter (fun r =>
        r.id_paciente ≠ (select_canonical kg.2).1.id_paciente &&
          r.id_paciente ∉ st.archived)) = []
    · simp only [hnew]
      exact ⟨hsum, harch, hcan, hpair⟩
    · simp only [hnew, if_neg, reduceIte]
      have hmem : ∀ r ∈ ((select_canonical kg.2).2.filter (fun r =>
          r.id_paciente ≠ (select_canonical kg.2).1.id_paciente &&
            r.id_paciente ∉ st.archived)),
          r.id_paciente ≠ (select_canonical kg.2).1.id_paciente ∧
            r.id_paciente ∉ st.archived := by
        intro r hr
        have := (List.mem_filter.mp hr).2
        simp at this
        exact this
      refine ⟨?_, ?_, ?_, ?_⟩
      · simp [hsum]
      · intro e he i hi
        rcases List.mem_append.mp he with he | he
        · exact List.mem_append_left _ (harch e he i hi)
        · simp at he
          subst he
          simp at hi
          exact List.mem_append_right _ (by
            simpa using hi)
      · intro e he
        rcases List.mem_append.mp he with he | he
        · exact hcan e he
        · simp at he
          subst he
          simp only []
          intro hinmem
          simp at hinmem
          rcases hinmem with ⟨r, hr, hid⟩
          exact hr.2.1 hid
      · rw [List.pairwise_append]
        refine ⟨hpair, by simp [disjointIds], ?_⟩
        intro e1 he1 e2 he2
        simp at he2
        subst he2
        intro i hi1
        simp only []
        intro hi2
        simp at hi2
        rcases hi2 with ⟨r, hr, hid⟩
        exact hr.2.2 (hid ▸ harch e1 he1 i hi1)

theorem processCriteria_inv (records : List PatientRecord) (criteria : String)
    (key_fn : PatientRecord → Option (String × String)) (st : DupState)
    (h : DupInv st) : DupInv (processCriteria records criteria key_fn st) := by
  rw [processCriteria]
  generalize group_by records key_fn = gs
  induction gs generalizing st with
  | nil => exact h
  | cons kg t ih => exact ih _ (processGroup_inv criteria st kg h)

/-- Claim C10: in the duplicate-detection report, the duplicate-id lists of
the log entries are pairwise disjoint, no entry's list contains its own
canonical id, and `total_duplicates` is the sum of the list lengths. -/
theorem C10_duplicate_report_invariants (records : List PatientRecord) :
    (detect_duplicates records).total_duplicates =
        ((detect_duplicates records).log_entries.map
          (fun e => e.duplicate_ids.length)).sum ∧
      (∀ e ∈ (detect_duplicates records).log_entries,
        e.canonical_id ∉ e.duplicate_ids) ∧
      (detect_duplicates records).log_entries.Pairwise disjointIds := by
  have h0 : DupInv ⟨[], [], 0, 0⟩ := by
    refine ⟨by simp, by simp, by simp, by simp⟩
  have h1 := processCriteria_inv records "nombre+fecha_nacimiento"
    key_by_birthdate _ h0
  have h2 := processCriteria_inv records "nombre+ciudad" key_by_city _ h1
  exact ⟨h2.1, h2.2.2.1, h2.2.2.2⟩

/-! Demand forecast (`src/core/services/demand_forecast_service.py`).
The report's `generated_at` wall-clock timestamp is not modelled.  Python's
`round` (banker's rounding, half to even) is `pyRound`; the float constant
`1.2` is the rational `6/5`. -/

/-- Python `round(x)` on a rational: round half to even. -/
def pyRound (q : ℚ) : Int :=
  let f := ⌊q⌋
  let r := q - f
  if r < 1 / 2 then f
  else if 1 / 2 < r then f + 1
  else if f % 2 = 0 then f else f + 1

/-- Python `value or default` for optional strings: `default` when falsy. -/
def orDefault (v : Option String) (d : String) : String :=
  match v with
  | none => d
  | some s => if s = "" then d else s

/-- Lexicographic comparison of character lists, the model of Python's
string `<=` (code-point order). -/
def charListLe : List Char → List Char → Bool
  | [], _ => true
  | _ :: _, [] => false
  | a :: as, b :: bs =>
      if a < b then true else if b < a then false else charListLe as bs

/-- Model of Python string `<=`. -/
def strLeB (a b : String) : Bool := charListLe a.data b.data

/-- Embedding of `DemandForecastService._parse_date`. -/
def parse_date (value : Option String) : Option PyDateTime :=
  match value with
  | none => none
  | some s => if s = "" then none else parseIsoDateTime s

/-- Embedding of `DemandForecastService._format_month`:
`f"{value.year}-{value.month:02d}"`. -/
def format_month (d : SimpleDate) : String :=
  intToString d.year ++ "-" ++ pad2 d.month

/-- Loop state of `DemandForecastService.forecast`: the three dicts and the
parsed-dates list. -/
structure ForecastState where
  monthly_totals : List (String × Nat)
  doctor_month : List ((String × String) × Nat)
  doctor_specialty : List (String × String)
  parsed_dates : List PyDateTime
deriving Repr, DecidableEq

/-- Body of the appointment loop of `forecast`: skip unparseable dates,
count the month and the (doctor, month), and record the doctor's specialty
(last write wins). -/
def forecastStep (st : ForecastState) (a : AppointmentRecord) : ForecastState :=
  match parse_date a.fecha_cita with
  | none => st
  | some dt =>
      let month_key := format_month dt.date
      let doctor := orDefault a.medico "Sin médico"
      { monthly_totals := alistUpd (fun n => n + 1) 0 st.monthly_totals month_key
        doctor_month := alistUpd (fun n => n + 1) 0 st.doctor_month
          (doctor, month_key)
        doctor_specialty := alistUpd
          (fun _ => orDefault a.especialidad "General")
          (orDefault a.especialidad "General") st.doctor_specialty doctor
        parsed_dates := st.parsed_dates ++ [dt] }

/-- Embedding of `DemandForecastService._compute_avg_growth`: mean of the
month-over-month rates between consecutive entries of the sorted month list,
skipping pairs whose previous total is zero. -/
def compute_avg_growth (months : List String)
    (totals : List (String × Nat)) : ℚ :=
  let rates := (months.zip months.tail).filterMap (fun pc =>
    let prev_value := alistGetD totals pc.1 0
    let curr_value := alistGetD totals pc.2 0
    if prev_value = 0 then none
    else some (((curr_value : ℚ) - prev_value) / prev_value))
  if rates = [] then 0 else rates.sum / rates.length

/-- Split a character list on `-` (Python `str.split("-")`), keeping empty
parts; accumulator form. -/
def splitDashAux : List Char → List Char → List (List Char)
  | [], acc => [acc.reverse]
  | c :: cs, acc =>
      if c = '-' then acc.reverse :: splitDashAux cs []
      else splitDashAux cs (c :: acc)

/-- Python `str.split("-")`. -/
def splitDash (l : List Char) : List (List Char) := splitDashAux l []

/-- Value of a digit string (Python `int` on the month-key pieces). -/
def digitsToNat (l : List Char) : Nat :=
  l.foldl (fun n c => 10 * n + (c.toNat - 48)) 0

/-- Successive month keys after `(year, month)` (the loop body of
`_build_future_months`). -/
def buildFutureAux : Nat → Nat → Nat → List String
  | _, _, 0 => []
  | y, m, Nat.succ k =>
      let m1 := m + 1
      let y2 := if 12 < m1 then y + 1 else y
      let m2 := if 12 < m1 then 1 else m1
      (natToString y2 ++ "-" ++ pad2 m2) :: buildFutureAux y2 m2 k

/-- Embedding of `DemandForecastService._build_future_months`: parse the
`YYYY-MM` key and emit `count` successive months. -/
def build_future_months (last_month : String) (count : Nat) : List String :=
  match splitDash last_month.data with
  | [ys, ms] => buildFutureAux (digitsToNat ys) (digitsToNat ms) count
  | _ => []

/-- Entry of the demand-forecast report (`DemandForecastEntry`). -/
structure DemandForecastEntry where
  doctor : String
  specialty : String
  month : String
  predicted_demand : Int
  capacity : Int
  gap : Int
deriving Repr, DecidableEq

/-- Entries generated for one doctor by the inner loop of `forecast`:
capacity is `max(int(round(last_count * 1.2)), 15)`, and the prediction for
horizon `idx` (1-based) is `int(round(last_count * (1 + g) ** idx))`, or `0`
when the doctor has no appointments in the last month. -/
def forecastEntriesFor (doctor_month : List ((String × String) × Nat))
    (avg_growth : ℚ) (future_months : List String) (last_month : String)
    (doctor specialty : String) : List DemandForecastEntry :=
  let last_count := alistGetD doctor_month (doctor, last_month) 0
  let capacity : Int := max (pyRound ((last_count : ℚ) * (6 / 5))) 15
  future_months.enum.map (fun im =>
    let idx := im.1 + 1
    let predicted : Int :=
      if last_count = 0 then 0
      else pyRound ((last_count : ℚ) * (1 + avg_growth) ^ idx)
    ⟨doctor, specialty, im.2, predicted, capacity, predicted - capacity⟩)

/-- Report of `DemandForecastService.forecast` (`DemandForecastReport`),
without the wall-clock `generated_at`. -/
structure DemandForecastReport where
  avg_monthly_growth : ℚ
  months_ahead : Nat
  future_months : List String
  total_capacity : Int
  entries : List DemandForecastEntry
deriving Repr, DecidableEq

/-- Embedding of `DemandForecastService.forecast`. -/
def demand_forecast (appointments : List AppointmentRecord) :
    DemandForecastReport :=
  let st := appointments.foldl forecastStep ⟨[], [], [], []⟩
  if st.parsed_dates = [] then
    { avg_monthly_growth := 0
      months_ahead := 3
      future_months := []
      total_capacity := 0
      entries := [] }
  else
    let sorted_months := sortLe strLeB (st.monthly_totals.map (fun p => p.1))
    let avg_growth := compute_avg_growth sorted_months st.monthly_totals
    let last_month := sorted_months.getLastD ""
    let future_months := build_future_months last_month 3
    let entries := st.doctor_specialty.flatMap (fun ds =>
      forecastEntriesFor st.doctor_month avg_growth future_months last_month
        ds.1 ds.2)
    let sorted_entries := sortLe
      (fun a b => decide (b.predicted_demand ≤ a.predicted_demand)) entries
    { avg_monthly_growth := avg_growth
      months_ahead := future_months.length
      future_months := future_months
      total_capacity := (sorted_entries.map (fun e => e.capacity)).sum
      entries := sorted_entries }

/-- Parsed appointments as (doctor, month-key) pairs, written directly from
the appointment list. -/
def parsedDoctorMonths (apps : List AppointmentRecord) :
    List (String × String) :=
  apps.filterMap (fun a => (parse_date a.fecha_cita).map (fun dt =>
    (orDefault a.medico "Sin médico", format_month dt.date)))

/-- Month keys of the parsed appointments, in order. -/
def observedMonths (apps : List AppointmentRecord) : List String :=
  (parsedDoctorMonths apps).map (fun t => t.2)

/-- Number of parsed appointments in a month. -/
def monthTotal (apps : List AppointmentRecord) (m : String) : Nat :=
  ((observedMonths apps).filter (fun x => x = m)).length

/-- Number of parsed appointments of a doctor in a month. -/
def doctorMonthCount (apps : List AppointmentRecord) (d m : String) : Nat :=
  ((parsedDoctorMonths apps).filter (fun t => t = (d, m))).length

/-- Last observed month over all appointments: the greatest distinct month
key in string order. -/
def lastObservedMonth (apps : List AppointmentRecord) : String :=
  (sortLe strLeB (dedupFirst (observedMonths apps))).getLastD ""

/-- Average growth written from the claim and the amended claim: the mean of
the month-over-month rates `(curr - prev) / prev` between consecutive
entries of the sorted distinct observed months, skipping zero `prev`. -/
def claimAvgGrowth (apps : List AppointmentRecord) : ℚ :=
  let months := sortLe strLeB (dedupFirst (observedMonths apps))
  let rates := (months.zip months.tail).filterMap (fun pc =>
    if monthTotal apps pc.1 = 0 then none
    else some (((monthTotal apps pc.2 : ℚ) - monthTotal apps pc.1) /
      monthTotal apps pc.1))
  if rates = [] then 0 else rates.sum / rates.length

/-- Volume written from the original claim C5: the doctor's own last
observed month's count (0 when the doctor has no parsed appointment). -/
def doctorLastObservedVolume (apps : List AppointmentRecord) (d : String) :
    Nat :=
  let months := ((parsedDoctorMonths apps).filter (fun t => t.1 = d)).map
    (fun t => t.2)
  match months with
  | [] => 0
  | _ :: _ =>
      doctorMonthCount apps d ((sortLe strLeB (dedupFirst months)).getLastD "")

theorem fold_parsed_dates (apps : List AppointmentRecord) (st : ForecastState) :
    (apps.foldl forecastStep st).parsed_dates =
      st.parsed_dates ++ apps.filterMap (fun a => parse_date a.fecha_cita) := by
  induction apps generalizing st with
  | nil => simp
  | cons a t ih =>
      rcases hp : parse_date a.fecha_cita with _ | dt
      · simp [List.foldl_cons, forecastStep, hp, ih, List.filterMap_cons]
      · simp [List.foldl_cons, forecastStep, hp, ih, List.filterMap_cons]

theorem fold_monthly_getD (apps : List AppointmentRecord) (st : ForecastState)
    (m : String) :
    alistGetD (apps.foldl forecastStep st).monthly_totals m 0 =
      alistGetD st.monthly_totals m 0 +
        ((observedMonths apps).filter (fun x => x = m)).length := by
  induction apps generalizing st with
  | nil => simp [observedMonths, parsedDoctorMonths]
  | cons a t ih =>
      rcases hp : parse_date a.fecha_cita with _ | dt
      · have hobs : observedMonths (a :: t) = observedMonths t := by
          simp [observedMonths, parsedDoctorMonths, List.filterMap_cons, hp]
        simp [List.foldl_cons, forecastStep, hp, ih, hobs]
      · have hobs : observedMonths (a :: t) =
            format_month dt.date :: observedMonths t := by
          simp [observedMonths, parsedDoctorMonths, List.filterMap_cons, hp]
        have hstep : (forecastStep st a).monthly_totals =
            alistUpd (fun n => n + 1) 0 st.monthly_totals
              (format_month dt.date) := by
          simp [forecastStep, hp]
        rw [List.foldl_cons, ih, hstep, alistGetD_upd, hobs, List.filter_cons]
        by_cases hm : m = format_month dt.date
        · subst hm
          simp
          omega
        · have hm' : ¬ (format_month dt.date = m) := fun e => hm e.symm
          simp [hm, hm']

theorem fold_doctor_month_getD (apps : List AppointmentRecord)
    (st : ForecastState) (d m : String) :
    alistGetD (apps.foldl forecastStep st).doctor_month (d, m) 0 =
      alistGetD st.doctor_month (d, m) 0 +
        ((parsedDoctorMonths apps).filter (fun t => t = (d, m))).length := by
  induction apps generalizing st with
  | nil => simp [parsedDoctorMonths]
  | cons a t ih =>
      rcases hp : parse_date a.fecha_cita with _ | dt
      · have hpar : parsedDoctorMonths (a :: t) = parsedDoctorMonths t := by
          simp [parsedDoctorMonths, List.filterMap_cons, hp]
        simp [List.foldl_cons, forecastStep, hp, ih, hpar]
      · have hpar : parsedDoctorMonths (a :: t) =
            (orDefault a.medico "Sin médico", format_month dt.date) ::
              parsedDoctorMonths t := by
          simp [parsedDoctorMonths, List.filterMap_cons, hp]
        have hstep : (forecastStep st a).doctor_month =
            alistUpd (fun n => n + 1) 0 st.doctor_month
              (orDefault a.medico "Sin médico", format_month dt.date) := by
          simp [forecastStep, hp]
        rw [List.foldl_cons, ih, hstep, alistGetD_upd, hpar, List.filter_cons]
        by_cases hm : (d, m) =
            (orDefault a.medico "Sin médico", format_month dt.date)
        · rw [if_pos hm, ← hm]
          simp
          omega
        · have hm' : ¬ ((orDefault a.medico "Sin médico",
              format_month dt.date) = (d, m)) := fun e => hm e.symm
          simp [hm, hm']

theorem fold_monthly_keys (apps : List AppointmentRecord) (st : ForecastState) :
    ((apps.foldl forecastStep st).monthly_totals).map (fun p => p.1) =
      st.monthly_totals.map (fun p => p.1) ++
        dedupAux (observedMonths apps) (st.monthly_totals.map (fun p => p.1)) := by
  induction apps generalizing st with
  | nil => simp [dedupAux]
  | cons a t ih =>
      rcases hp : parse_date a.fecha_cita with _ | dt
      · have hobs : observedMonths (a :: t) = observedMonths t := by
          simp [observedMonths, parsedDoctorMonths, List.filterMap_cons, hp]
        simp [List.foldl_cons, forecastStep, hp, ih, hobs]
      · have hobs : observedMonths (a :: t) =
            format_month dt.date :: observedMonths t := by
          simp [observedMonths, parsedDoctorMonths, List.filterMap_cons, hp]
        have hstep : (forecastStep st a).monthly_totals =
            alistUpd (fun n => n + 1) 0 st.monthly_totals
              (format_month dt.date) := by
          simp [forecastStep, hp]
        rw [List.foldl_cons, ih, hstep, alistUpd_keys, hobs]
        by_cases hm : format_month dt.date ∈
            st.monthly_totals.map (fun p => p.1)
        · rw [if_pos hm]
          have h1 : dedupAux (format_month dt.date :: observedMonths t)
              (st.monthly_totals.map (fun p => p.1)) =
              dedupAux (observedMonths t)
                (st.monthly_totals.map (fun p => p.1)) := by
            simp [dedupAux, hm]
          rw [h1]
        · rw [if_neg hm]
          have h1 : dedupAux (format_month dt.date :: observedMonths t)
              (st.monthly_totals.map (fun p => p.1)) =
              format_month dt.date :: dedupAux (observedMonths t)
                (format_month dt.date ::
                  st.monthly_totals.map (fun p => p.1)) := by
            simp [dedupAux, hm]
          rw [h1]
          rw [dedupAux_congr (observedMonths t)
            (st.monthly_totals.map (fun p => p.1) ++ [format_month dt.date])
            (format_month dt.date :: st.monthly_totals.map (fun p => p.1))
            (by intro x; simp; tauto)]
          simp

/-- Claim C5 (amended): the forecast's average growth is the mean of the
month-over-month rates between consecutive observed months; its future
months follow the last observed month; and every entry's predicted demand,
at the 1-based horizon `idx` of its month, is the doctor's appointment count
in the globally last observed month (zero count giving prediction 0, and
otherwise the count times `(1 + g) ^ idx`, rounded half-to-even). -/
theorem C5_demand_forecast (apps : List AppointmentRecord)
    (e : DemandForecastEntry) (he : e ∈ (demand_forecast apps).entries) :
    (demand_forecast apps).avg_monthly_growth = claimAvgGrowth apps ∧
    (demand_forecast apps).future_months =
      build_future_months (lastObservedMonth apps) 3 ∧
    ∃ idx : Nat, 1 ≤ idx ∧ idx ≤ (demand_forecast apps).future_months.length ∧
      (demand_forecast apps).future_months.getD (idx - 1) "" = e.month ∧
      e.predicted_demand =
        (if doctorMonthCount apps e.doctor (lastObservedMonth apps) = 0 then 0
         else pyRound
           ((doctorMonthCount apps e.doctor (lastObservedMonth apps) : ℚ) *
             (1 + claimAvgGrowth apps) ^ idx)) := by
  have hkeys : ((apps.foldl forecastStep ⟨[], [], [], []⟩).monthly_totals).map
      (fun p => p.1) = dedupFirst (observedMonths apps) := by
    rw [fold_monthly_keys]
    simp [dedupFirst, alistGetD]
  have hgetm : ∀ m, alistGetD
      (apps.foldl forecastStep ⟨[], [], [], []⟩).monthly_totals m 0 =
      monthTotal apps m := by
    intro m
    rw [fold_monthly_getD]
    simp [monthTotal, alistGetD]
  have hgetdm : ∀ d m, alistGetD
      (apps.foldl forecastStep ⟨[], [], [], []⟩).doctor_month (d, m) 0 =
      doctorMonthCount apps d m := by
    intro d m
    rw [fold_doctor_month_getD]
    simp [doctorMonthCount, alistGetD]
  by_cases hemp : (apps.foldl forecastStep ⟨[], [], [], []⟩).parsed_dates = []
  · rw [demand_forecast] at he
    simp only [hemp, if_pos, reduceIte] at he
    simp at he
  · have hgrow : compute_avg_growth
        (sortLe strLeB (((apps.foldl forecastStep
          ⟨[], [], [], []⟩).monthly_totals).map (fun p => p.1)))
        (apps.foldl forecastStep ⟨[], [], [], []⟩).monthly_totals =
        claimAvgGrowth apps := by
      rw [hkeys, compute_avg_growth, claimAvgGrowth]
      simp only [hgetm]
    rw [demand_forecast] at he ⊢
    simp only [hemp, if_neg, reduceIte] at he ⊢
    refine ⟨hgrow, by rw [hkeys, lastObservedMonth], ?_⟩
    have he2 := (sortLe_perm _ _).mem_iff.mp he
    rcases List.mem_flatMap.mp he2 with ⟨ds, hds, he3⟩
    rw [forecastEntriesFor] at he3
    simp only [List.mem_map] at he3
    rcases he3 with ⟨im, him, hee⟩
    rcases List.mem_enum_iff_get?.mp him with hget
    rcases List.get?_eq_some.mp hget with ⟨hlt, hgetv⟩
    subst hee
    refine ⟨im.1 + 1, by omega, by omega, ?_, ?_⟩
    · simp only [Nat.add_sub_cancel, List.getD_eq_getElem?_getD]
      rw [← List.get?_eq_getElem?]
      rw [hget]
      rfl
    · show (if alistGetD _ (ds.1, _) 0 = 0 then (0 : Int) else _) = _
      rw [hgetdm, hgrow, hkeys, lastObservedMonth]

theorem pyRound_of_fract_lt_half (q : ℚ) (n : Int) (h1 : (n : ℚ) ≤ q)
    (h2 : q - n < 1 / 2) : pyRound q = n := by
  have hf : ⌊q⌋ = n := by
    rw [Int.floor_eq_iff]
    exact ⟨h1, by push_cast; linarith⟩
  simp only [pyRound, hf]
  rw [if_pos h2]

/-- Appointment used by the C5 witness: one visit of Dr. A in January. -/
def forecastWitnessApp : AppointmentRecord :=
  ⟨"A1", some 1, some "2024-01-15", some "General", some "Dr. A", none, none⟩

theorem forecastWitness_entries :
    (demand_forecast [forecastWitnessApp]).entries =
      [⟨"Dr. A", "General", "2024-02", 1, 15, -14⟩,
       ⟨"Dr. A", "General", "2024-03", 1, 15, -14⟩,
       ⟨"Dr. A", "General", "2024-04", 1, 15, -14⟩] := by
  have hstate : [forecastWitnessApp].foldl forecastStep ⟨[], [], [], []⟩ =
      ⟨[("2024-01", 1)], [(("Dr. A", "2024-01"), 1)], [("Dr. A", "General")],
        [⟨⟨2024, 1, 15⟩, 0⟩]⟩ := by
    decide
  have hfm : build_future_months "2024-01" 3 =
      ["2024-02", "2024-03", "2024-04"] := by decide
  have hr1 : pyRound (1 : ℚ) = 1 :=
    pyRound_of_fract_lt_half 1 1 (by norm_num) (by norm_num)
  have hr65 : pyRound ((6 : ℚ) / 5) = 1 :=
    pyRound_of_fract_lt_half _ 1 (by norm_num) (by norm_num)
  simp only [demand_forecast, hstate]
  norm_num [sortLe, insertLe, compute_avg_growth, forecastEntriesFor,
    alistGetD, hfm, List.enum, List.enumFrom, hr1, hr65]
  decide

/-- Witness for C5: with a single January appointment of Dr. A, the growth is
0, the future months are 2024-02..04, and the first entry predicts
`round(1 * 1^1) = 1` appointments for 2024-02. -/
theorem C5_demand_forecast_witness :
    (demand_forecast [forecastWitnessApp]).avg_monthly_growth =
        claimAvgGrowth [forecastWitnessApp] ∧
      (demand_forecast [forecastWitnessApp]).future_months =
        build_future_months (lastObservedMonth [forecastWitnessApp]) 3 ∧
      ∃ idx : Nat, 1 ≤ idx ∧
        idx ≤ (demand_forecast [forecastWitnessApp]).future_months.length ∧
        (demand_forecast [forecastWitnessApp]).future_months.getD (idx - 1) "" =
          "2024-02" ∧
        (1 : Int) =
          (if doctorMonthCount [forecastWitnessApp] "Dr. A"
              (lastObservedMonth [forecastWitnessApp]) = 0 then 0
           else pyRound
             ((doctorMonthCount [forecastWitnessApp] "Dr. A"
                 (lastObservedMonth [forecastWitnessApp]) : ℚ) *
               (1 + claimAvgGrowth [forecastWitnessApp]) ^ idx)) :=
  C5_demand_forecast [forecastWitnessApp]
    ⟨"Dr. A", "General", "2024-02", 1, 15, -14⟩
    (by rw [forecastWitness_entries]; simp)

/-- Appointments refuting C5 as stated: Dr. A appears only in January, Dr. B
twice in February. -/
def forecastCounterApps : List AppointmentRecord :=
  [⟨"A1", some 1, some "2024-01-15", some "General", some "Dr. A", none, none⟩,
   ⟨"B1", some 2, some "2024-02-10", some "General", some "Dr. B", none, none⟩,
   ⟨"B2", some 3, some "2024-02-20", some "General", some "Dr. B", none, none⟩]

/-- Counterexample to C5 as stated: Dr. A's last observed monthly volume is 1
(January) and the average growth is 1, so the claim predicts
`round(1 * 2^1) = 2` for the first future month, but the code bases the
prediction on the count in the globally last month (February, where Dr. A
has none) and predicts 0 for all three horizons. -/
theorem C5_counterexample :
    ((demand_forecast forecastCounterApps).entries.filter
        (fun e => e.doctor = "Dr. A")).map (fun e => e.predicted_demand) =
      [0, 0, 0] ∧
    doctorLastObservedVolume forecastCounterApps "Dr. A" = 1 ∧
    (demand_forecast forecastCounterApps).avg_monthly_growth = 1 ∧
    pyRound ((1 : ℚ) * (1 + 1) ^ 1) = 2 ∧ (2 : Int) ≠ 0 := by
  have hstate : forecastCounterApps.foldl forecastStep ⟨[], [], [], []⟩ =
      ⟨[("2024-01", 1), ("2024-02", 2)],
        [(("Dr. A", "2024-01"), 1), (("Dr. B", "2024-02"), 2)],
        [("Dr. A", "General"), ("Dr. B", "General")],
        [⟨⟨2024, 1, 15⟩, 0⟩, ⟨⟨2024, 2, 10⟩, 0⟩, ⟨⟨2024, 2, 20⟩, 0⟩]⟩ := by
    decide
  have hle : strLeB "2024-01" "2024-02" = true := by decide
  have hfm : build_future_months "2024-02" 3 =
      ["2024-03", "2024-04", "2024-05"] := by decide
  have e1 : alistGetD [("2024-01", (1 : Nat)), ("2024-02", 2)] "2024-01" 0 = 1 := by
    decide
  have e2 : alistGetD [("2024-01", (1 : Nat)), ("2024-02", 2)] "2024-02" 0 = 2 := by
    decide
  have hgrow : compute_avg_growth ["2024-01", "2024-02"]
      [("2024-01", 1), ("2024-02", 2)] = 1 := by
    rw [compute_avg_growth]
    simp only [List.zip, List.zipWith, List.filterMap_cons, List.filterMap_nil]
    rw [e1, e2]
    norm_num
  have hr0 : pyRound (0 : ℚ) = 0 :=
    pyRound_of_fract_lt_half 0 0 (by norm_num) (by norm_num)
  have hr24 : pyRound ((2 : ℚ) * (6 / 5)) = 2 := by
    rw [show ((2 : ℚ) * (6 / 5)) = 12 / 5 by norm_num]
    exact pyRound_of_fract_lt_half _ 2 (by norm_num) (by norm_num)
  have hr4 : pyRound ((2 : ℚ) * (1 + 1) ^ 1) = 4 := by
    rw [show ((2 : ℚ) * (1 + 1) ^ 1) = 4 by norm_num]
    exact pyRound_of_fract_lt_half 4 4 (by norm_num) (by norm_num)
  have hr4' : pyRound ((2 : ℚ) * (1 + 1)) = 4 := by
    rw [show ((2 : ℚ) * (1 + 1)) = 4 by norm_num]
    exact pyRound_of_fract_lt_half 4 4 (by norm_num) (by norm_num)
  have hr8 : pyRound ((2 : ℚ) * (1 + 1) ^ 2) = 8 := by
    rw [show ((2 : ℚ) * (1 + 1) ^ 2) = 8 by norm_num]
    exact pyRound_of_fract_lt_half 8 8 (by norm_num) (by norm_num)
  have hr16 : pyRound ((2 : ℚ) * (1 + 1) ^ 3) = 16 := by
    rw [show ((2 : ℚ) * (1 + 1) ^ 3) = 16 by norm_num]
    exact pyRound_of_fract_lt_half 16 16 (by norm_num) (by norm_num)
  have hr2 : pyRound ((1 : ℚ) * (1 + 1) ^ 1) = 2 := by
    rw [show ((1 : ℚ) * (1 + 1) ^ 1) = 2 by norm_num]
    exact pyRound_of_fract_lt_half 2 2 (by norm_num) (by norm_num)
  refine ⟨?_, by decide, ?_, hr2, by decide⟩
  · simp only [demand_forecast, hstate]
    simp [sortLe, insertLe, hle, hgrow, hfm, forecastEntriesFor,
      alistGetD, List.enum, List.enumFrom, hr0, hr24, hr4, hr4', hr8, hr16]
  · simp only [demand_forecast, hstate]
    simp [sortLe, insertLe, hle, hgrow]

/-! Completeness metrics (`src/core/services/completeness_service.py`) and
the email imputation plan (`src/adapters/imputers/city_category_imputer.py`).
`getattr(record, field)` over the `FIELDS_TO_CHECK` is `fieldValue`;
`round(x, 2)` is `pyRound2`. -/

/-- Model of `getattr(record, field)` for the three checked fields. -/
def fieldValue (r : PatientRecord) (field : String) : Option String :=
  if field = "email" then r.email
  else if field = "telefono" then r.telefono
  else if field = "ciudad" then r.ciudad
  else none

/-- Python `round(x, 2)`. -/
def pyRound2 (q : ℚ) : ℚ := (pyRound (q * 100) : ℚ) / 100

/-- Loop state of `CompletenessService._metric_for_field`: the two counters
and the per-city / per-category `[total, missing]` dicts. -/
structure MetricState where
  total : Nat
  missing : Nat
  per_city : List (String × (Nat × Nat))
  per_category : List (String × (Nat × Nat))
deriving Repr, DecidableEq

/-- Body of the record loop of `_metric_for_field`. -/
def metricStep (field : String) (st : MetricState) (r : PatientRecord) :
    MetricState :=
  let city := orDefault r.ciudad "sin_ciudad"
  let missingv := ¬ truthyStr (fieldValue r field)
  { total := st.total + 1
    missing := if missingv then st.missing + 1 else st.missing
    per_city := alistUpd
      (fun p => (p.1 + 1, if missingv then p.2 + 1 else p.2)) (0, 0)
      st.per_city city
    per_category := alistUpd
      (fun p => (p.1 + 1, if missingv then p.2 + 1 else p.2)) (0, 0)
      st.per_category r.categoria }

/-- Completeness metric (`CompletenessMetric`); the two percentage maps are
insertion-ordered association lists. -/
structure CompletenessMetric where
  field : String
  total : Nat
  missing : Nat
  completeness : ℚ
  per_city_missing : List (String × ℚ)
  per_category_missing : List (String × ℚ)
deriving Repr, DecidableEq

/-- Embedding of `CompletenessService._metric_for_field`. -/
def metric_for_field (records : List PatientRecord) (field : String) :
    CompletenessMetric :=
  let st := records.foldl (metricStep field) ⟨0, 0, [], []⟩
  { field := field
    total := st.total
    missing := st.missing
    completeness :=
      if st.total ≠ 0 then max 0 (1 - (st.missing : ℚ) / st.total) else 0
    per_city_missing := (st.per_city.filter (fun cv => cv.2.1 ≠ 0)).map
      (fun cv => (cv.1, pyRound2 ((cv.2.2 : ℚ) / cv.2.1 * 100)))
    per_category_missing := (st.per_category.filter (fun cv => cv.2.1 ≠ 0)).map
      (fun cv => (cv.1, pyRound2 ((cv.2.2 : ℚ) / cv.2.1 * 100))) }

/-- Embedding of `CityCategoryImputer._compute_ratios`: per-city
`(total, missed, missed / total)` for a field. -/
def computeRatios (records : List PatientRecord) (field : String) :
    List (String × (Nat × Nat × ℚ)) :=
  let stats := records.foldl (fun m r =>
    alistUpd (fun p => (p.1 + 1,
        if ¬ truthyStr (fieldValue r field) then p.2 + 1 else p.2)) (0, 0)
      m (orDefault r.ciudad "sin_ciudad")) []
  stats.map (fun cv => (cv.1, (cv.2.1, cv.2.2,
    if cv.2.1 ≠ 0 then (cv.2.2 : ℚ) / cv.2.1 else 0)))

/-- Data of an imputation plan: the Python `ImputationPlan.strategy` is a
fixed sentence interpolating the selected example city and its rounded
missing ratio; the sentence is represented by these two values. -/
structure ImputationPlanModel where
  field : String
  exampleCity : String
  exampleRatio : ℚ
deriving Repr, DecidableEq

/-- Embedding of `CityCategoryImputer._plan_for_email`: sort the city stats
by ratio, descending and stable, and name the first city in the strategy. -/
def plan_for_email (stats : List (String × (Nat × Nat × ℚ))) :
    ImputationPlanModel :=
  let candidates := sortLe (fun a b => decide (b.2.2.2 ≤ a.2.2.2)) stats
  match candidates with
  | [] => ⟨"email", "", 0⟩
  | c :: _ => ⟨"email", c.1, c.2.2.2⟩

/-- Claim C6: for two Bogotá patients with missing email and one Medellín
patient with an email, the email metric's `per_city_missing` maps Medellín
to 0.0, and the email plan names Bogotá, the city with the highest missing
ratio (its ratio being 1, the maximum). -/
theorem C6_completeness_example :
    alistFind (metric_for_field
        [⟨1, "Ana", none, some 30, none, none, some "300", some "Bogotá", "adult"⟩,
         ⟨2, "Luis", none, some 40, none, none, none, some "Bogotá", "adult"⟩,
         ⟨3, "Eva", none, some 50, none, some "eva@x.co", none, some "Medellín",
          "adult"⟩] "email").per_city_missing "Medellín" = some 0 ∧
    (plan_for_email (computeRatios
        [⟨1, "Ana", none, some 30, none, none, some "300", some "Bogotá", "adult"⟩,
         ⟨2, "Luis", none, some 40, none, none, none, some "Bogotá", "adult"⟩,
         ⟨3, "Eva", none, some 50, none, some "eva@x.co", none, some "Medellín",
          "adult"⟩] "email")).exampleCity = "Bogotá" ∧
    (∀ cv ∈ computeRatios
        [⟨1, "Ana", none, some 30, none, none, some "300", some "Bogotá", "adult"⟩,
         ⟨2, "Luis", none, some 40, none, none, none, some "Bogotá", "adult"⟩,
         ⟨3, "Eva", none, some 50, none, some "eva@x.co", none, some "Medellín",
          "adult"⟩] "email",
      cv.2.2.2 ≤ 1) ∧
    (plan_for_email (computeRatios
        [⟨1, "Ana", none, some 30, none, none, some "300", some "Bogotá", "adult"⟩,
         ⟨2, "Luis", none, some 40, none, none, none, some "Bogotá", "adult"⟩,
         ⟨3, "Eva", none, some 50, none, some "eva@x.co", none, some "Medellín",
          "adult"⟩] "email")).exampleRatio = 1 := by
  have hst : [(⟨1, "Ana", none, some 30, none, none, some "300", some "Bogotá",
        "adult"⟩ : PatientRecord),
      ⟨2, "Luis", none, some 40, none, none, none, some "Bogotá", "adult"⟩,
      ⟨3, "Eva", none, some 50, none, some "eva@x.co", none, some "Medellín",
        "adult"⟩].foldl (metricStep "email") ⟨0, 0, [], []⟩ =
      ⟨3, 2, [("Bogotá", (2, 2)), ("Medellín", (1, 0))],
        [("adult", (3, 2))]⟩ := by
    decide
  have hstats : [(⟨1, "Ana", none, some 30, none, none, some "300", some "Bogotá",
        "adult"⟩ : PatientRecord),
      ⟨2, "Luis", none, some 40, none, none, none, some "Bogotá", "adult"⟩,
      ⟨3, "Eva", none, some 50, none, some "eva@x.co", none, some "Medellín",
        "adult"⟩].foldl (fun m r =>
      alistUpd (fun p => (p.1 + 1,
          if ¬ truthyStr (fieldValue r "email") then p.2 + 1 else p.2)) (0, 0)
        m (orDefault r.ciudad "sin_ciudad")) [] =
      [("Bogotá", (2, 2)), ("Medellín", (1, 0))] := by
    decide
  have hq0 : pyRound2 ((0 : ℚ) / 1 * 100) = 0 := by
    rw [show ((0 : ℚ) / 1 * 100) = 0 by norm_num]
    rw [pyRound2, show ((0 : ℚ) * 100) = 0 by norm_num,
      pyRound_of_fract_lt_half 0 0 (by norm_num) (by norm_num)]
    norm_num
  have hq100 : pyRound2 ((2 : ℚ) / 2 * 100) = 100 := by
    rw [show ((2 : ℚ) / 2 * 100) = 100 by norm_num]
    rw [pyRound2, show ((100 : ℚ) * 100) = 10000 by norm_num,
      pyRound_of_fract_lt_half 10000 10000 (by norm_num) (by norm_num)]
    norm_num
  have hq0' : pyRound2 (0 : ℚ) = 0 := by
    rw [pyRound2, show ((0 : ℚ) * 100) = 0 by norm_num,
      pyRound_of_fract_lt_half 0 0 (by norm_num) (by norm_num)]
    norm_num
  refine ⟨?_, ?_, ?_, ?_⟩
  · simp only [metric_for_field, hst]
    simp [alistFind, hq0, hq100, hq0']
  · simp only [computeRatios, hstats, plan_for_email]
    norm_num [sortLe, insertLe]
  · simp only [computeRatios, hstats]
    intro cv hcv
    simp only [List.map_cons, List.map_nil, List.mem_cons,
      List.not_mem_nil, or_false] at hcv
    rcases hcv with hcv | hcv <;> rw [hcv] <;> norm_num
  · simp only [computeRatios, hstats, plan_for_email]
    norm_num [sortLe, insertLe]

/-! Cancellation risk (`src/core/services/cancellation_risk_service.py`).
Entries carry the additive `weight`, the argument of the sigmoid; the
Python `risk_score` is `sigmoidR weight`, and sorting by score equals
sorting by weight because the sigmoid is strictly monotone.  The report's
`high_risk_count`, `average_risk` and `specialty_risk` compare or average
irrational sigmoid values and are not modelled; no claim concerns them,
and `generated_at` is wall-clock time. -/

/-- Lowercasing of a whole string (model of `str.lower()`). -/
def pyLowerStr (s : String) : String := ⟨s.data.map pyLowerChar⟩

/-- Embedding of `CancellationRiskService._normalize_specialty`: falsy gives
`"General"`, otherwise `strip().lower()`. -/
def riskNormalizeSpecialty (specialty : Option String) : String :=
  match specialty with
  | none => "General"
  | some s => if s = "" then "General" else pyLowerStr (pyStrip s)

/-- The `_specialty_weights` table with default 0.1, looked up at the
lowercased specialty. -/
def specialtyWeight (s : String) : ℚ :=
  if s = "pediatría" then 2 / 5
  else if s = "geriatría" then 3 / 10
  else if s = "cardiología" then 7 / 20
  else if s = "cirugía" then 1 / 4
  else if s = "general" then 1 / 5
  else 1 / 10

/-- Rata-die day number of a date (the civil-from-days algorithm), used to
model `datetime` subtraction. -/
def rataDie (d : SimpleDate) : Int :=
  let y := if d.month ≤ 2 then d.year - 1 else d.year
  let era := y.fdiv 400
  let yoe := y - era * 400
  let mp : Int := (d.month : Int) + (if 2 < d.month then -3 else 9)
  let doy := (153 * mp + 2).fdiv 5 + (d.day : Int) - 1
  let doe := yoe * 365 + yoe.fdiv 4 - yoe.fdiv 100 + doy
  era * 146097 + doe - 719468

/-- Model of `(current - previous).days` on timestamps: the floor of the
difference in days, as Python `timedelta.days` floors. -/
def dtDaysDiff (previous current : PyDateTime) : Int :=
  ((rataDie current.date - rataDie previous.date) * 86400 +
    ((current.secs : Int) - previous.secs)).fdiv 86400

/-- Embedding of `CancellationRiskService._compute_days_between`. -/
def compute_days_between (previous : PyDateTime) (current_str : Option String) :
    Option Int :=
  match parse_date current_str with
  | none => none
  | some current => some (max (dtDaysDiff previous current) 0)

/-- Timestamp ordering (tuple comparison of Python datetimes). -/
def dtLe (a b : PyDateTime) : Bool :=
  decide (a.date.year < b.date.year) ||
    (decide (a.date.year = b.date.year) &&
      (decide (a.date.month < b.date.month) ||
        (decide (a.date.month = b.date.month) &&
          (decide (a.date.day < b.date.day) ||
            (decide (a.date.day = b.date.day) && decide (a.secs ≤ b.secs))))))

/-- Embedding of `CancellationRiskService._sort_key` as an ordering: by
`(id_paciente or -1, parsed date or datetime.min)`. -/
def sortKeyLe (a b : AppointmentRecord) : Bool :=
  let pa := match a.id_paciente with | none => (-1 : Int) | some i => i
  let pb := match b.id_paciente with | none => (-1 : Int) | some i => i
  let da := match parse_date a.fecha_cita with
    | none => (⟨⟨1, 1, 1⟩, 0⟩ : PyDateTime)
    | some dt => dt
  let db := match parse_date b.fecha_cita with
    | none => (⟨⟨1, 1, 1⟩, 0⟩ : PyDateTime)
    | some dt => dt
  decide (pa < pb) || (decide (pa = pb) && dtLe da db)

/-- Embedding of `CancellationRiskService._score_appointment`: the additive
weight (the argument later fed to the sigmoid) and the factor strings. -/
def score_appointment (prev_status : Option String) (days_since_last : Option Int)
    (estado_cita : Option String) (specialty : String) : ℚ × List String :=
  let w0 : ℚ := -(6 / 5)
  let (w1, f1) :=
    match prev_status with
    | none => (w0, ([] : List String))
    | some s =>
        if s = "" then (w0, [])
        else
          let normalized := pyLowerStr (pyStrip s)
          let (wa, fa) :=
            if normalized = "cancelada" then (w0 + 11 / 10, ["Cancelación previa"])
            else (w0, [])
          if normalized = "reprogramada" then (wa + 3 / 5, fa ++ ["Reprogramada previa"])
          else (wa, fa)
  let (w2, f2) :=
    match days_since_last with
    | none => (w1, f1)
    | some d =>
        if d ≤ 3 then (w1 + 9 / 10, f1 ++ ["Intervalo corto (<4 días)"])
        else if d ≤ 7 then (w1 + 2 / 5, f1 ++ ["Intervalo ajustado (<8 días)"])
        else (w1, f1)
  let (w3, f3) :=
    match estado_cita with
    | none => (w2, f2)
    | some s =>
        if s ≠ "" && pyLowerStr (pyStrip s) = "cancelada" then
          (w2 + 7 / 5, f2 ++ ["Estado actual Cancelada"])
        else (w2, f2)
  let sw := specialtyWeight (pyLowerStr specialty)
  let w4 := w3 + sw
  let f4 := if 0 < sw then f3 ++ ["Especialidad: " ++ specialty] else f3
  (w4, f4)

/-- Entry of the cancellation-risk report (`CancellationRiskEntry`); the
factor string interpolates `specialty.title()`, modelled by the specialty
label itself. -/
structure CancellationRiskEntry where
  id_cita : String
  id_paciente : Option Int
  especialidad : String
  estado_cita : Option String
  weight : ℚ
  days_since_last : Option Int
  factors : List String
deriving Repr, DecidableEq

/-- Loop state of `CancellationRiskService.analyze`: the per-patient history
dict, the entries, and the running total. -/
structure RiskState where
  history : List (Int × (Option String × Option PyDateTime))
  entries : List CancellationRiskEntry
  total : Nat

/-- Body of the appointment loop of `analyze`. -/
def riskStep (st : RiskState) (a : AppointmentRecord) : RiskState :=
  let specialty_label := riskNormalizeSpecialty a.especialidad
  let prev := match a.id_paciente with
    | none => none
    | some pid => alistFind st.history pid
  let days_since_last := match prev with
    | some (_, some last_date) => compute_days_between last_date a.fecha_cita
    | _ => none
  let prev_status := match prev with
    | some (s, _) => s
    | none => none
  let wf := score_appointment prev_status days_since_last a.estado_cita
    specialty_label
  let history := match a.id_paciente with
    | none => st.history
    | some pid => alistUpd (fun _ => (a.estado_cita, parse_date a.fecha_cita))
        (a.estado_cita, parse_date a.fecha_cita) st.history pid
  { history := history
    entries := st.entries ++
      [⟨a.id_cita, a.id_paciente, specialty_label, a.estado_cita, wf.1,
        days_since_last, wf.2⟩]
    total := st.total + 1 }

/-- Report of `CancellationRiskService.analyze` (total and top-20 entries;
see the section comment for the unmodelled aggregate fields). -/
structure CancellationRiskReport where
  total_records : Nat
  entries : List CancellationRiskEntry

/-- Embedding of `CancellationRiskService.analyze`: sort the appointments by
`(patient, date)`, score them in order, then keep the 20 highest-scoring
entries (stable sort by weight, the sigmoid's argument, which orders exactly
as the sigmoid scores do). -/
def cancellation_analyze (appointments : List AppointmentRecord) :
    CancellationRiskReport :=
  let sorted := sortLe sortKeyLe appointments
  let st := sorted.foldl riskStep ⟨[], [], 0⟩
  let sorted_entries := sortLe (fun a b => decide (b.weight ≤ a.weight))
    st.entries
  { total_records := st.total
    entries := sorted_entries.take 20 }

/-- The sigmoid `1 / (1 + exp(-w))` of `_sigmoid`, over the reals. -/
noncomputable def sigmoidR (w : ℚ) : ℝ := 1 / (1 + Real.exp (-(w : ℝ)))

theorem sigmoidR_pos (w : ℚ) : 0 < sigmoidR w := by
  rw [sigmoidR]
  positivity

theorem sigmoidR_lt_one (w : ℚ) : sigmoidR w < 1 := by
  rw [sigmoidR]
  rw [div_lt_one (by positivity)]
  have := Real.exp_pos (-(w : ℝ))
  linarith

theorem sigmoidR_mono {w w' : ℚ} (h : w ≤ w') : sigmoidR w ≤ sigmoidR w' := by
  rw [sigmoidR, sigmoidR]
  have hexp : Real.exp (-(w' : ℝ)) ≤ Real.exp (-(w : ℝ)) := by
    apply Real.exp_le_exp.mpr
    simp only [neg_le_neg_iff]
    exact_mod_cast h
  have h1 : (0 : ℝ) < 1 + Real.exp (-(w' : ℝ)) := by positivity
  apply one_div_le_one_div_of_le
  · positivity
  · linarith

theorem riskFold_total (apps : List AppointmentRecord) (st : RiskState) :
    (apps.foldl riskStep st).total = st.total + apps.length := by
  induction apps generalizing st with
  | nil => simp
  | cons a t ih =>
      rw [List.foldl_cons, ih]
      simp [riskStep]
      omega

/-- Claim C9: the cancellation-risk report has at most 20 entries, the
entries are in non-increasing order of risk score, every risk score lies
strictly between 0 and 1, and `total_records` counts all appointments. -/
theorem C9_cancellation_risk (apps : List AppointmentRecord) :
    (cancellation_analyze apps).total_records = apps.length ∧
    (cancellation_analyze apps).entries.length ≤ 20 ∧
    (cancellation_analyze apps).entries.Pairwise
      (fun e1 e2 => sigmoidR e2.weight ≤ sigmoidR e1.weight) ∧
    ∀ e ∈ (cancellation_analyze apps).entries,
      0 < sigmoidR e.weight ∧ sigmoidR e.weight < 1 := by
  refine ⟨?_, ?_, ?_, ?_⟩
  · show (List.foldl riskStep ⟨[], [], 0⟩ (sortLe sortKeyLe apps)).total = _
    rw [riskFold_total]
    simp [(sortLe_perm sortKeyLe apps).length_eq]
  · have hlen : ∀ l : List CancellationRiskEntry, (l.take 20).length ≤ 20 :=
      fun l => by simp [List.length_take]
    exact hlen _
  · have hpair := sortLe_pairwise
      (fun a b : CancellationRiskEntry => decide (b.weight ≤ a.weight))
      (by
        intro x y
        by_cases h : y.weight ≤ x.weight
        · exact Or.inl (by simpa using h)
        · exact Or.inr (by simp; linarith))
      (by
        intro x y z h1 h2
        simp at h1 h2 ⊢
        linarith)
      (List.foldl riskStep ⟨[], [], 0⟩ (sortLe sortKeyLe apps)).entries
    have htake := hpair.sublist (List.take_sublist 20 _)
    exact htake.imp (fun h => by
      simp at h
      exact sigmoidR_mono h)
  · intro e _
    exact ⟨sigmoidR_pos e.weight, sigmoidR_lt_one e.weight⟩

/-! HTTP layer (`backend/app.py`).  The filesystem (report files), the
script registry, module importing and `main()` execution are the handlers'
environment, passed as parameters: report files as association lists from
basename to content, the registry as an association list from normalized key
to module name, importing and running as `Except String` results whose
error is the exception's message.  `raise HTTPException(status, detail)`
becomes an `Except.error` carrying the status and detail. -/

/-- Status and detail of a raised `HTTPException`. -/
structure HTTPError where
  status : Nat
  detail : String
deriving Repr, DecidableEq

/-- Embedding of the `get_report` handler: 404 when no `{name}.json` report
file exists, else its parsed content. -/
def get_report (reports : List (String × String)) (name : String) :
    Except HTTPError String :=
  match alistFind reports name with
  | none => .error ⟨404, "Report not found"⟩
  | some content => .ok content

/-- Embedding of the `get_report_html` handler. -/
def get_report_html (htmlReports : List (String × String)) (name : String) :
    Except HTTPError String :=
  match alistFind htmlReports name with
  | none => .error ⟨404, "HTML report not found"⟩
  | some content => .ok content

/-- The five `case` values of `_service_runner`. -/
def validCases : List String :=
  ["doctor-notifications", "doctor-utilization", "patient-travel",
   "management-kpis", "etl"]

/-- Embedding of the `post_run` handler: `_service_runner` raises
`ValueError("Unknown case")` for any other case, which the handler converts
to a 404 with the exception's text; `runner` is the summary computation of
the five services. -/
def post_run {α : Type} (runner : String → α) (c : String) :
    Except HTTPError α :=
  if c ∈ validCases then .ok (runner c) else .error ⟨404, "Unknown case"⟩

/-- Response of `upload_dataset` (`DatasetUploadResponse`). -/
structure DatasetUploadResponse where
  status : String
  path : String
  size : Nat
deriving Repr, DecidableEq

/-- Embedding of the `upload_dataset` handler: 415 for a non-JSON content
type, 400 for empty content, else the dataset is replaced. -/
def upload_dataset (content : List Nat) (content_type : String) :
    Except HTTPError DatasetUploadResponse :=
  if content_type ≠ "application/json" then
    .error ⟨415, "Dataset must be a JSON file"⟩
  else if content = [] then
    .error ⟨400, "Uploaded dataset cannot be empty"⟩
  else .ok ⟨"replaced", "dataset_hospital 2 AWS.json", content.length⟩

/-- Embedding of `_normalize_script_key`:
`key.replace("-", "_").strip().lower()`, then the `run_` prefix removed. -/
def normalize_script_key (k : String) : String :=
  let cleaned := pyLowerStr (pyStrip
    ⟨k.data.map (fun c => if c = '-' then '_' else c)⟩)
  match cleaned.data with
  | 'r' :: 'u' :: 'n' :: '_' :: rest => ⟨rest⟩
  | _ => cleaned

/-- Embedding of the `run_script` handler (with `_resolve_script` and
`_load_script_module` inlined): 404 for an unknown normalized key, 500 when
the import fails, 422 without a `main`, 500 with the exception's message
when `main()` raises, else the module name and result. -/
def run_script {α : Type} (registry : List (String × String))
    (importResult : String → Except String Unit) (hasMain : String → Bool)
    (execMain : String → Except String α) (script_key : String) :
    Except HTTPError (String × α) :=
  match alistFind registry (normalize_script_key script_key) with
  | none => .error ⟨404, "Script not found"⟩
  | some module_name =>
      match importResult module_name with
      | .error msg =>
          .error ⟨500, "Unable to import " ++ module_name ++ ": " ++ msg⟩
      | .ok _ =>
          if ¬ hasMain module_name then
            .error ⟨422, "Script does not expose a main() entry point"⟩
          else
            match execMain module_name with
            | .error msg => .error ⟨500, module_name ++ " failed: " ++ msg⟩
            | .ok result => .ok (module_name, result)

/-- Claim C7: missing reports, scripts and cases give 404; a dataset upload
with a non-JSON content type gives 415 and empty content gives 400; a script
whose `main()` raises gives 500 with the original exception's message inside
the error detail. -/
theorem C7_http_error_codes {α : Type} (runner : String → α)
    (reports htmlReports registry : List (String × String))
    (importResult : String → Except String Unit) (hasMain : String → Bool)
    (execMain : String → Except String α) :
    (∀ name, alistFind reports name = none →
      get_report reports name = .error ⟨404, "Report not found"⟩) ∧
    (∀ name, alistFind htmlReports name = none →
      get_report_html htmlReports name = .error ⟨404, "HTML report not found"⟩) ∧
    (∀ c, c ∉ validCases →
      post_run runner c = .error ⟨404, "Unknown case"⟩) ∧
    (∀ key, alistFind registry (normalize_script_key key) = none →
      run_script registry importResult hasMain execMain key =
        .error ⟨404, "Script not found"⟩) ∧
    (∀ content content_type, content_type ≠ "application/json" →
      upload_dataset content content_type =
        .error ⟨415, "Dataset must be a JSON file"⟩) ∧
    (upload_dataset [] "application/json" =
      .error ⟨400, "Uploaded dataset cannot be empty"⟩) ∧
    (∀ key module_name msg,
      alistFind registry (normalize_script_key key) = some module_name →
      importResult module_name = .ok () →
      hasMain module_name = true →
      execMain module_name = .error msg →
      run_script registry importResult hasMain execMain key =
          .error ⟨500, module_name ++ " failed: " ++ msg⟩ ∧
        ∃ pre, module_name ++ " failed: " ++ msg = pre ++ msg) := by
  refine ⟨?_, ?_, ?_, ?_, ?_, ?_, ?_⟩
  · intro name h
    simp [get_report, h]
  · intro name h
    simp [get_report_html, h]
  · intro c h
    simp [post_run, h]
  · intro key h
    simp [run_script, h]
  · intro content content_type h
    simp [upload_dataset, h]
  · simp [upload_dataset]
  · intro key module_name msg hfind himp hmain hexec
    refine ⟨?_, ⟨module_name ++ " failed: ", by simp⟩⟩
    simp [run_script, hfind, himp, hmain, hexec]

/-- Witness for C7 at concrete inputs: an empty environment, the report name
"x", the case "nope", the script key "x", a text/plain upload, and a script
"demo" whose `main()` raises "boom". -/
theorem C7_http_error_codes_witness :
    (get_report [] "x" = .error ⟨404, "Report not found"⟩) ∧
    (get_report_html [] "x" = .error ⟨404, "HTML report not found"⟩) ∧
    (post_run (fun _ => (0 : Nat)) "nope" = .error ⟨404, "Unknown case"⟩) ∧
    (run_script [] (fun _ => .ok ()) (fun _ => true)
      (fun _ => (.error "boom" : Except String Nat)) "x" =
      .error ⟨404, "Script not found"⟩) ∧
    (upload_dataset [1] "text/plain" =
      .error ⟨415, "Dataset must be a JSON file"⟩) ∧
    (upload_dataset [] "application/json" =
      .error ⟨400, "Uploaded dataset cannot be empty"⟩) ∧
    (run_script [("demo", "scripts.run_demo")] (fun _ => .ok ())
        (fun _ => true) (fun _ => (.error "boom" : Except String Nat)) "demo" =
        .error ⟨500, "scripts.run_demo failed: boom"⟩ ∧
      ∃ pre, "scripts.run_demo failed: boom" = pre ++ "boom") := by
  have h := C7_http_error_codes (fun _ => (0 : Nat)) [] [] []
    (fun _ => .ok ()) (fun _ => true)
    (fun _ => (.error "boom" : Except String Nat))
  have h2 := C7_http_error_codes (fun _ => (0 : Nat)) [] []
    [("demo", "scripts.run_demo")]
    (fun _ => .ok ()) (fun _ => true)
    (fun _ => (.error "boom" : Except String Nat))
  refine ⟨h.1 "x" (by rfl), h.2.1 "x" (by rfl), h.2.2.1 "nope" (by decide),
    h.2.2.2.1 "x" (by rfl), h.2.2.2.2.1 [1] "text/plain" (by decide),
    h.2.2.2.2.2.1, ?_⟩
  have h500 := h2.2.2.2.2.2.2 "demo" "scripts.run_demo" "boom"
    (by decide) (by rfl) (by rfl) (by rfl)
  exact h500

/-! Text normalization (`src/core/services/text_normalization_service.py`).
`unicodedata.normalize("NFKD", ...)` is modelled character-wise by the
`nfkdTable` fragment (fully expanded decompositions for the characters the
dataset uses, plus the spacing acute accent `´`, whose compatibility
decomposition is a space followed by a combining acute), and
`unicodedata.combining(ch) != 0` by membership in `combiningMarks`. -/

/-- Modelled NFKD decompositions (fully expanded). -/
def nfkdTable : List (Char × List Char) :=
  [('á', ['a', '́']), ('é', ['e', '́']), ('í', ['i', '́']),
   ('ó', ['o', '́']), ('ú', ['u', '́']), ('ñ', ['n', '̃']),
   ('ü', ['u', '̈']), ('´', [' ', '́'])]

/-- NFKD decomposition of one character. -/
def nfkdChar (c : Char) : List Char :=
  match alistFind nfkdTable c with
  | some l => l
  | none => [c]

/-- Combining marks of the modelled fragment. -/
def combiningMarks : List Char := ['́', '̃', '̈']

/-- Model of `unicodedata.combining(ch) != 0`. -/
def combiningChar (c : Char) : Bool := c ∈ combiningMarks

/-- Embedding of `TextNormalizationService._normalize_text` on the character
list of a non-None string: collapse whitespace runs with a single space,
strip, lowercase, NFKD-decompose, and drop combining marks. -/
def normalizeChars (l : List Char) : List Char :=
  let cleaned := joinSpace (splitWs l)
  let cleaned2 := (stripChars cleaned).map pyLowerChar
  let normalized := cleaned2.flatMap nfkdChar
  normalized.filter (fun c => ¬ combiningChar c)

/-- Embedding of `TextNormalizationService._normalize_text`. -/
def normalize_text (value : Option String) : Option String :=
  match value with
  | none => none
  | some s => some ⟨normalizeChars s.data⟩

/-- NFKD decomposition of the lowercased character: the characters the
normalization can emit for one input character. -/
def lowNF (c : Char) : List Char := nfkdChar (pyLowerChar c)

/-- Characters whose normalization output contains no whitespace and at
least one non-combining character: the hypothesis of the amended claim. -/
def normReadyChar (c : Char) : Prop :=
  (∀ d ∈ lowNF c, pyWhitespace d = false) ∧
    (∃ d ∈ lowNF c, combiningChar d = false)

instance (c : Char) : Decidable (normReadyChar c) := by
  rw [normReadyChar]
  infer_instance

/-- Counterexample to C8 as stated: the spacing acute accent `´` normalizes
to a single space (its NFKD decomposition introduces whitespace after
stripping has already happened), and re-normalizing `" "` yields `""`. -/
theorem C8_counterexample :
    normalize_text (some "´") = some " " ∧
    normalize_text (some " ") = some "" ∧
    (some " " : Option String) ≠ some "" := by
  refine ⟨by decide, by decide, by decide⟩

/-- A character is inert when lowercasing and NFKD leave it unchanged
(plain lowercase letters, digits, punctuation; not `ᴷ`, `№` or `℃`, whose
NFKD decompositions contain uppercase letters the second pass would
lowercase). -/
def inertChar (d : Char) : Prop := pyLowerChar d = d ∧ nfkdChar d = [d]

instance (d : Char) : Decidable (inertChar d) := by
  rw [inertChar]
  infer_instance

theorem splitWsAux_cons (c : Char) (cs acc : List Char) :
    splitWsAux (c :: cs) acc =
      if pyWhitespace c then
        (match acc with
         | [] => splitWsAux cs []
         | a :: acc2 => (a :: acc2).reverse :: splitWsAux cs [])
      else splitWsAux cs (c :: acc) := rfl

theorem splitWsAux_words (l : List Char) :
    ∀ acc, (∀ c ∈ acc, pyWhitespace c = false) →
      ∀ w ∈ splitWsAux l acc, w ≠ [] ∧
        ∀ c ∈ w, pyWhitespace c = false ∧ (c ∈ l ∨ c ∈ acc) := by
  induction l with
  | nil =>
      intro acc hacc w hw
      rcases acc with _ | ⟨a, acc'⟩
      · simp [splitWsAux] at hw
      · simp [splitWsAux] at hw
        subst hw
        refine ⟨by simp, ?_⟩
        intro c hc
        simp at hc
        exact ⟨hacc c (List.mem_cons.mpr (Or.symm hc)),
          Or.inr (List.mem_cons.mpr (Or.symm hc))⟩
  | cons x xs ih =>
      intro acc hacc w hw
      by_cases hx : pyWhitespace x = true
      · rcases acc with _ | ⟨a, acc'⟩
        · rw [splitWsAux_cons] at hw
          rw [if_pos hx] at hw
          have := ih [] (by simp) w hw
          exact ⟨this.1, fun c hc =>
            ⟨(this.2 c hc).1, by
              rcases (this.2 c hc).2 with h | h
              · exact Or.inl (by simp [h])
              · simp at h⟩⟩
        · rw [splitWsAux_cons] at hw
          rw [if_pos hx] at hw
          rcases List.mem_cons.mp hw with rfl | hw2
          · refine ⟨by simp, ?_⟩
            intro c hc
            simp at hc
            exact ⟨hacc c (List.mem_cons.mpr (Or.symm hc)),
              Or.inr (List.mem_cons.mpr (Or.symm hc))⟩
          · have := ih [] (by simp) w hw2
            exact ⟨this.1, fun c hc =>
              ⟨(this.2 c hc).1, by
                rcases (this.2 c hc).2 with h | h
                · exact Or.inl (by simp [h])
                · simp at h⟩⟩
      · rw [splitWsAux_cons] at hw
        rw [if_neg hx] at hw
        have hacc' : ∀ c ∈ x :: acc, pyWhitespace c = false := by
          intro c hc
          rcases List.mem_cons.mp hc with rfl | hc
          · simpa using hx
          · exact hacc c hc
        have := ih (x :: acc) hacc' w hw
        exact ⟨this.1, fun c hc =>
          ⟨(this.2 c hc).1, by
            rcases (this.2 c hc).2 with h | h
            · exact Or.inl (by simp [h])
            · rcases List.mem_cons.mp h with rfl | h
              · exact Or.inl (by simp)
              · exact Or.inr h⟩⟩

theorem splitWsAux_word_front (v : List Char)
    (hv : ∀ c ∈ v, pyWhitespace c = false) (r acc : List Char) :
    splitWsAux (v ++ r) acc = splitWsAux r (v.reverse ++ acc) := by
  induction v generalizing acc with
  | nil => simp
  | cons c v' ih =>
      have hc : pyWhitespace c = false := hv c (by simp)
      rw [List.cons_append, splitWsAux_cons]
      rw [if_neg (by simp [hc])]
      rw [ih (fun d hd => hv d (by simp [hd])) (c :: acc)]
      congr 1
      simp

theorem joinSpace_single (w : List Char) : joinSpace [w] = w := rfl

theorem joinSpace_cons2 (w v : List Char) (ws : List (List Char)) :
    joinSpace (w :: v :: ws) = w ++ ' ' :: joinSpace (v :: ws) := rfl

theorem splitWs_joinSpace (vs : List (List Char))
    (h : ∀ v ∈ vs, v ≠ [] ∧ ∀ c ∈ v, pyWhitespace c = false) :
    splitWs (joinSpace vs) = vs := by
  induction vs with
  | nil => rfl
  | cons v vs' ih =>
      have hv := h v (by simp)
      rcases vs' with _ | ⟨v2, vs''⟩
      · rw [joinSpace_single, splitWs]
        rw [show v = v ++ [] by simp]
        rw [splitWsAux_word_front v hv.2 [] []]
        rcases hrev : v.reverse with _ | ⟨a, t⟩
        · exact absurd (by simpa using hrev) hv.1
        · simp only [List.append_nil, splitWsAux, List.append_eq]
          rw [show a :: t = v.reverse from hrev.symm, List.reverse_reverse]
      · rw [joinSpace_cons2, splitWs]
        rw [splitWsAux_word_front v hv.2 (' ' :: joinSpace (v2 :: vs'')) []]
        rw [splitWsAux_cons]
        rw [if_pos (by decide)]
        rcases hrev : v.reverse with _ | ⟨a, t⟩
        · exact absurd (by simpa using hrev) hv.1
        · simp only [List.append_nil, hrev]
          rw [← hrev]
          simp only [List.reverse_reverse]
          rw [show splitWsAux (joinSpace (v2 :: vs'')) [] =
            splitWs (joinSpace (v2 :: vs'')) from rfl]
          rw [ih (fun w hw => h w (by simp [hw]))]

theorem joinSpace_cons_head (v : List Char) (vs : List (List Char))
    (hv : v ≠ []) :
    ∃ c t, joinSpace (v :: vs) = c :: t ∧ c ∈ v := by
  rcases v with _ | ⟨c, v'⟩
  · exact absurd rfl hv
  · rcases vs with _ | ⟨v2, vs'⟩
    · exact ⟨c, v', joinSpace_single _, by simp⟩
    · exact ⟨c, v' ++ ' ' :: joinSpace (v2 :: vs'), by
        rw [joinSpace_cons2]; simp, by simp⟩

theorem joinSpace_reverse_head (vs : List (List Char))
    (h : ∀ v ∈ vs, v ≠ []) (hne : vs ≠ []) :
    ∃ c t, (joinSpace vs).reverse = c :: t ∧ ∃ v ∈ vs, c ∈ v := by
  induction vs with
  | nil => exact absurd rfl hne
  | cons v vs' ih =>
      rcases vs' with _ | ⟨v2, vs''⟩
      · rw [joinSpace_single]
        rcases hrev : v.reverse with _ | ⟨a, t⟩
        · exact absurd (by simpa using hrev) (h v (by simp))
        · exact ⟨a, t, rfl, v, by simp, by
            have ha : a ∈ v.reverse := by rw [hrev]; simp
            simpa using ha⟩
      · rcases ih (fun w hw => h w (by simp [hw])) (by simp) with
          ⟨c, t, hj, w, hw, hc⟩
        refine ⟨c, t ++ ' ' :: v.reverse, ?_, w, by simp [hw], hc⟩
        rw [joinSpace_cons2, List.reverse_append, List.reverse_cons, hj]
        simp

theorem stripChars_joinSpace (vs : List (List Char))
    (h : ∀ v ∈ vs, v ≠ [] ∧ ∀ c ∈ v, pyWhitespace c = false) :
    stripChars (joinSpace vs) = joinSpace vs := by
  rcases vs with _ | ⟨v, vs'⟩
  · rfl
  · rcases joinSpace_cons_head v vs' (h v (by simp)).1 with ⟨c, t, hj, hc⟩
    have hcws : pyWhitespace c = false := (h v (by simp)).2 c hc
    rcases joinSpace_reverse_head (v :: vs') (fun w hw => (h w hw).1)
      (by simp) with ⟨c2, t2, hj2, w2, hw2, hc2⟩
    have hc2ws : pyWhitespace c2 = false := (h w2 hw2).2 c2 hc2
    rw [stripChars]
    rw [hj, List.dropWhile_cons]
    rw [if_neg (by simp [hcws])]
    rw [← hj, hj2, List.dropWhile_cons]
    rw [if_neg (by simp [hc2ws])]
    rw [← hj2]
    simp

/-- Image of one word under lowercasing, NFKD decomposition and removal of
combining marks. -/
def wordImage (w : List Char) : List Char :=
  ((w.map pyLowerChar).flatMap nfkdChar).filter (fun c => ¬ combiningChar c)

theorem normalize_join (vs : List (List Char)) :
    (((joinSpace vs).map pyLowerChar).flatMap nfkdChar).filter
      (fun c => ¬ combiningChar c) = joinSpace (List.map wordImage vs) := by
  induction vs with
  | nil => rfl
  | cons v vs' ih =>
      rcases vs' with _ | ⟨v2, vs''⟩
      · rfl
      · have h1 : pyLowerChar ' ' = ' ' := by decide
        have h2 : nfkdChar ' ' = [' '] := by decide
        have h3 : combiningChar ' ' = false := by decide
        rw [joinSpace_cons2]
        rw [show joinSpace (List.map wordImage (v :: v2 :: vs'')) =
          wordImage v ++ ' ' :: joinSpace (List.map wordImage (v2 :: vs''))
          from rfl]
        rw [← ih]
        simp [List.map_append, List.flatMap_append, List.filter_append,
          h1, h2, h3, wordImage]

theorem mem_wordImage {d : Char} {w : List Char} :
    d ∈ wordImage w ↔ (∃ c ∈ w, d ∈ lowNF c) ∧ combiningChar d = false := by
  simp only [wordImage, List.mem_filter, List.mem_flatMap, List.mem_map,
    lowNF]
  constructor
  · rintro ⟨⟨a, ⟨c, hc, rfl⟩, hd⟩, hcomb⟩
    exact ⟨⟨c, hc, hd⟩, by simpa using hcomb⟩
  · rintro ⟨⟨c, hc, hd⟩, hcomb⟩
    exact ⟨⟨pyLowerChar c, ⟨c, hc, rfl⟩, hd⟩, by simp [hcomb]⟩

theorem wordImage_eq_self (v : List Char)
    (h : ∀ d ∈ v, inertChar d ∧ combiningChar d = false) :
    wordImage v = v := by
  induction v with
  | nil => rfl
  | cons c v' ih =>
      have hc : (pyLowerChar c = c ∧ nfkdChar c = [c]) ∧
          combiningChar c = false := h c (by simp)
      have hrest := ih (fun d hd => h d (by simp [hd]))
      simp only [wordImage] at hrest ⊢
      rw [List.map_cons, hc.1.1, List.flatMap_cons, hc.1.2,
        List.singleton_append, List.filter_cons, if_pos (by simp [hc.2]),
        hrest]

/-- C8: the text normalization (collapse internal whitespace, strip,
lowercase, NFKD-decompose, drop combining marks) is idempotent on every
string each of whose characters is whitespace or has a lowercased NFKD
decomposition that contains no whitespace, contains at least one
non-combining character, and consists only of inert characters (fixed by
lowercasing and NFKD: this excludes `´`, which emits whitespace, and
characters such as `ᴷ`, `№`, `℃`, whose decompositions contain uppercase
letters that a second pass would lowercase). The unrestricted claim is
refuted by `C8_counterexample`. -/
theorem C8_normalize_idempotent (s : String)
    (h : ∀ c ∈ s.data, pyWhitespace c = true ∨
      (normReadyChar c ∧ ∀ d ∈ lowNF c, inertChar d)) :
    normalize_text (normalize_text (some s)) = normalize_text (some s) := by
  have hwords : ∀ w ∈ splitWs s.data, w ≠ [] ∧
      ∀ c ∈ w, pyWhitespace c = false ∧ c ∈ s.data := by
    intro w hw
    obtain ⟨hne, hCh⟩ := splitWsAux_words s.data [] (by simp) w hw
    refine ⟨hne, fun c hc => ⟨(hCh c hc).1, ?_⟩⟩
    rcases (hCh c hc).2 with h1 | h1
    · exact h1
    · simp at h1
  have hprops : ∀ w ∈ splitWs s.data, w ≠ [] ∧
      ∀ c ∈ w, pyWhitespace c = false :=
    fun w hw => ⟨(hwords w hw).1, fun c hc => ((hwords w hw).2 c hc).1⟩
  have hready : ∀ w ∈ splitWs s.data, ∀ c ∈ w,
      normReadyChar c ∧ ∀ d ∈ lowNF c, inertChar d := by
    intro w hw c hc
    rcases h c ((hwords w hw).2 c hc).2 with ht | ht
    · exact absurd ht (by simp [((hwords w hw).2 c hc).1])
    · exact ht
  have h1 : normalizeChars s.data =
      joinSpace (List.map wordImage (splitWs s.data)) := by
    simp only [normalizeChars]
    rw [stripChars_joinSpace _ hprops, normalize_join]
  have hA : ∀ v ∈ List.map wordImage (splitWs s.data),
      v ≠ [] ∧ ∀ d ∈ v, pyWhitespace d = false := by
    intro v hv
    obtain ⟨w, hw, rfl⟩ := List.mem_map.mp hv
    obtain ⟨hne, hCh⟩ := hwords w hw
    constructor
    · rcases hw2 : w with _ | ⟨c, w'⟩
      · exact absurd hw2 hne
      · have hr := hready w hw c (by simp [hw2])
        obtain ⟨d, hd, hdc⟩ := hr.1.2
        intro hnil
        have hmem : d ∈ wordImage w :=
          mem_wordImage.mpr ⟨⟨c, by simp [hw2], hd⟩, hdc⟩
        rw [hw2, hnil] at hmem
        exact absurd hmem (List.not_mem_nil d)
    · intro d hd
      obtain ⟨⟨c, hc, hdl⟩, hcomb⟩ := mem_wordImage.mp hd
      exact (hready w hw c hc).1.1 d hdl
  have hB : ∀ v ∈ List.map wordImage (splitWs s.data),
      ∀ d ∈ v, inertChar d ∧ combiningChar d = false := by
    intro v hv d hd
    obtain ⟨w, hw, rfl⟩ := List.mem_map.mp hv
    obtain ⟨⟨c, hc, hdl⟩, hcomb⟩ := mem_wordImage.mp hd
    exact ⟨(hready w hw c hc).2 d hdl, hcomb⟩
  have h2 : normalizeChars (joinSpace (List.map wordImage (splitWs s.data)))
      = joinSpace (List.map wordImage (splitWs s.data)) := by
    simp only [normalizeChars]
    rw [splitWs_joinSpace _ hA, stripChars_joinSpace _ hA, normalize_join]
    congr 1
    calc List.map wordImage (List.map wordImage (splitWs s.data))
        = List.map id (List.map wordImage (splitWs s.data)) :=
          List.map_congr_left (fun v hv => wordImage_eq_self v (hB v hv))
      _ = List.map wordImage (splitWs s.data) := List.map_id _
  have h3 : normalizeChars (normalizeChars s.data) = normalizeChars s.data :=
    by rw [h1, h2]
  simp only [normalize_text]
  exact congrArg (fun t => some (⟨t⟩ : String)) h3

/-- Witness for C8: a concrete accented, mixed-case, multi-space name
satisfies the hypothesis (its characters decompose to inert, non-whitespace
characters) and the normalization is idempotent on it. -/
theorem C8_normalize_idempotent_witness :
    (∀ c ∈ ("José  GÓMEZ" : String).data,
        pyWhitespace c = true ∨
          (normReadyChar c ∧ ∀ d ∈ lowNF c, inertChar d)) ∧
      normalize_text (normalize_text (some "José  GÓMEZ")) =
        normalize_text (some "José  GÓMEZ") :=
  ⟨by decide, C8_normalize_idempotent "José  GÓMEZ" (by decide)⟩

end Hospital
